import Mathlib

/-!
# Sound visualizer: the streaming spectral filter `FFTAudioStream`

A shallow embedding of `src/FFTAudioStream.cpp`.

* The class fields become the fields of the structure `FFTAudioStream`; every
  method becomes a function that takes the state and returns the new state.
* `float` / `double` values are rationals.  The comparisons of the cutoff
  setters and of the mask are exact on them, and complex arithmetic is taken
  without rounding.  The `float` product of `onSeek` is binary32 arithmetic:
  every conversion, division and multiplication is rounded to the nearest
  binary32 value, ties to even (`roundBinary32`).
* `std::size_t` arithmetic is taken modulo `2 ^ 64`.
* `operator[]` on a `std::vector` is unchecked.  A read at an index past the
  end yields whatever the memory behind the storage holds; that memory is an
  explicit component of `Config`.  A write past the end does not change the
  vector.  The functions of this file therefore agree with the code on a block
  call only while every access to the sample buffer is inside it
  (`sampleAccessesInRange`); `onGetDataChecked` returns `none` otherwise.
* The headers `fft.h` and `FFTAudioStream.h` are not translated: the block
  length `SAMPLES_TO_STREAM` and the two transforms `CFFT::Forward`,
  `CFFT::Inverse` are components of `Config`.
-/

namespace SoundVisualizer

/-! ## The complex value type -/

/-- Modelled from the spec: the `complex` value type declared in the absent
header `fft.h`, a pair of a real and an imaginary part (`1+0i`, `0+0i`),
multiplied the usual way.  A real number converts to the complex number with
imaginary part zero. -/
structure complex where
  re : ℚ
  im : ℚ
deriving DecidableEq, Repr

namespace complex

/-- The conversion `complex(double)` used by `temporaryComplex = 1.0` and by
`temporaryShortComplex = samplesVector[..]`. -/
def ofReal (x : ℚ) : complex := ⟨x, 0⟩

instance : Zero complex := ⟨ofReal 0⟩
instance : One complex := ⟨ofReal 1⟩

/-- The product `operator*` of two complex numbers. -/
def mul (a b : complex) : complex :=
  ⟨a.re * b.re - a.im * b.im, a.re * b.im + a.im * b.re⟩

instance : Mul complex := ⟨mul⟩

end complex

/-! ## Machine arithmetic and unchecked vector access -/

/-- The number of values of `std::size_t`. -/
def sizeModulus : Nat := 2 ^ 64

/-- Addition of `std::size_t` values. -/
def sizeAdd (a b : Nat) : Nat := (a + b) % sizeModulus

/-- Subtraction of `std::size_t` values. -/
def sizeSub (a b : Nat) : Nat := (a % sizeModulus + sizeModulus - b % sizeModulus) % sizeModulus

/-- The unchecked read `xs[j]`: the element when `j` is inside the vector, the
content `pastEnd j` of the memory behind it otherwise. -/
def vecRead {α : Type} (xs : List α) (pastEnd : Nat → α) (j : Nat) : α :=
  (xs[j]?).getD (pastEnd j)

/-- The call `xs.resize(n)`: keeps the first `n` elements and fills up with
value-initialised ones. -/
def resize {α : Type} (xs : List α) (n : Nat) (fill : α) : List α :=
  xs.take n ++ List.replicate (n - xs.length) fill

/-- Rounding toward zero, as a conversion from floating point to an integer
type does. -/
def truncate (x : ℚ) : Int := if 0 ≤ x then Int.floor x else Int.ceil x

/-- The narrowing cast `(sf::Int16) x` of a `double`, as the conversion
instruction of x86-64 performs it: rounding toward zero to a 32-bit integer,
then the low sixteen bits read as a signed number; a value that does not fit
32 bits converts to the bit pattern `0x80000000`, whose low sixteen bits are
zero. -/
def toInt16 (x : ℚ) : Int :=
  if -2147483648 ≤ truncate x ∧ truncate x < 2147483648 then Int.bmod (truncate x) 65536
  else 0

/-- Rounding to the nearest integer, ties to the even one. -/
def roundHalfEven (x : ℚ) : Int :=
  if x - (Int.floor x : ℚ) < 1 / 2 then Int.floor x
  else if 1 / 2 < x - (Int.floor x : ℚ) then Int.floor x + 1
  else if Int.floor x % 2 = 0 then Int.floor x else Int.floor x + 1

/-- Rounding of a non-negative number to binary32: 24 significant bits in the
binade of `x`, with the smallest exponent `-126`.  No overflow threshold is
applied: the values formed by `onSeek` from a 64-bit count of microseconds and
two 32-bit counts stay below `2 ^ 108`. -/
def roundBinary32Pos (x : ℚ) : ℚ :=
  (roundHalfEven (x / 2 ^ (max (Int.log 2 x) (-126) - 23)) : ℚ)
    * 2 ^ (max (Int.log 2 x) (-126) - 23)

/-- Rounding to the nearest binary32 value, ties to even: the result of every
`float` operation and of every conversion of an integer to `float`. -/
def roundBinary32 (x : ℚ) : ℚ :=
  if x < 0 then -roundBinary32Pos (-x) else roundBinary32Pos x

/-! ## Configuration and state -/

/-- What `FFTAudioStream.cpp` leaves open: the block length declared in
`FFTAudioStream.h`, the two transforms of `fft.h`, and the memory found behind
a vector by a read past its end. -/
structure Config where
  SAMPLES_TO_STREAM : Nat
  Forward : List complex → List complex
  Inverse : List complex → List complex
  pastEndComplex : Nat → complex
  pastEndSample : Nat → Int

/-- The decoded asset handed to `load` (`sf::SoundBuffer`). -/
structure SoundBuffer where
  samples : List Int
  channelCount : Nat
  sampleRate : Nat

/-- The fields of the class `FFTAudioStream`, with the channel count and sample
rate (both `unsigned int`) kept by the base class `sf::SoundStream`. -/
structure FFTAudioStream where
  samplesVector : List Int
  currentSampleWaveVector : List complex
  currentSampleCleanSpectrumVector : List complex
  currentSampleSpectrumVector : List complex
  filteredWaveDataVector : List complex
  filterShortComplexVector : List complex
  lowFilterValue : ℚ
  highFilterValue : ℚ
  currentSample : Nat
  channelCount : Nat
  sampleRate : Nat

/-- A freshly constructed object: empty vectors, zero scalars. -/
def FFTAudioStream.fresh : FFTAudioStream :=
  ⟨[], [], [], [], [], [], 0, 0, 0, 0, 0⟩

/-- The chunk `sf::SoundStream::Chunk` filled in by `onGetData`: `samples` is
the index into `samplesVector` the pointer refers to. -/
structure Chunk where
  samples : Nat
  sampleCount : Nat
deriving DecidableEq, Repr

/-! ## Filter mask -/

/-- The value stored in mask bin `i` by the loop body of
`generateFilterVector`. -/
def filterGain (low high : ℚ) (i : Nat) : complex :=
  complex.ofReal (if (i : ℚ) > low ∧ (i : ℚ) < high then 1 else 0)

/-- The method `generateFilterVector`: the mask is resized to
`SAMPLES_TO_STREAM / 4` and every bin is assigned. -/
def generateFilterVector (E : Config) (s : FFTAudioStream) : FFTAudioStream :=
  let resized := resize s.filterShortComplexVector (E.SAMPLES_TO_STREAM / 4) 0
  let filled := List.foldl
    (fun v i => v.set i (filterGain s.lowFilterValue s.highFilterValue i))
    resized (List.range (E.SAMPLES_TO_STREAM / 4))
  { s with filterShortComplexVector := filled }

/-- The method `setLowFilterValue`. -/
def setLowFilterValue (E : Config) (lowFilterValue : ℚ) (s : FFTAudioStream) : FFTAudioStream :=
  if lowFilterValue ≥ 0 ∧ lowFilterValue ≤ ((E.SAMPLES_TO_STREAM / 4 : Nat) : ℚ) then
    generateFilterVector E { s with lowFilterValue := lowFilterValue }
  else s

/-- The method `setHighFilterValue`. -/
def setHighFilterValue (E : Config) (highFilterValue : ℚ) (s : FFTAudioStream) : FFTAudioStream :=
  if highFilterValue ≥ 0 ∧ highFilterValue ≤ ((E.SAMPLES_TO_STREAM / 4 : Nat) : ℚ) then
    generateFilterVector E { s with highFilterValue := highFilterValue }
  else s

/-- The method `load`. -/
def load (E : Config) (buffer : SoundBuffer) (s : FFTAudioStream) : FFTAudioStream :=
  let s1 := { s with samplesVector := buffer.samples }
  let s2 := { s1 with lowFilterValue := 0 }
  let s3 := { s2 with highFilterValue := ((E.SAMPLES_TO_STREAM / 4 : Nat) : ℚ) }
  let s4 := generateFilterVector E s3
  let wave := resize s4.currentSampleWaveVector E.SAMPLES_TO_STREAM 0
  let s5 := { s4 with currentSampleWaveVector := wave }
  let s6 := { s5 with currentSample := 0 }
  { s6 with channelCount := buffer.channelCount, sampleRate := buffer.sampleRate }

/-- A call of one of the two cutoff setters. -/
inductive FilterCall where
  | setLow (v : ℚ)
  | setHigh (v : ℚ)

/-- Runs one setter call. -/
def FilterCall.run (E : Config) (s : FFTAudioStream) : FilterCall → FFTAudioStream
  | .setLow v => setLowFilterValue E v s
  | .setHigh v => setHighFilterValue E v s

/-! ## Block processing -/

/-- The index `currentSample + i` of `samplesVector` used by
`getStreamSamples` and `applyFilteredSignalToSound`. -/
def streamIndex (currentSample i : Nat) : Nat := sizeAdd currentSample i

/-- The method `getStreamSamples`: block extraction.  The scratch member
`temporaryShortComplex` holds the converted sample.  A read at an index
outside `samplesVector` yields `pastEndSample`; the code has no defined
behaviour there (see `sampleAccessesInRange`). -/
def getStreamSamples (E : Config) (s : FFTAudioStream) : FFTAudioStream :=
  let wave := List.foldl
    (fun w i => w.set i
      (complex.ofReal ((vecRead s.samplesVector E.pastEndSample (streamIndex s.currentSample i) : Int) : ℚ)))
    s.currentSampleWaveVector (List.range E.SAMPLES_TO_STREAM)
  { s with currentSampleWaveVector := wave }

/-- The mask index `(T % 2 == 0 ? i : SAMPLES_TO_STREAM / 4 - i)` used by
`applyFilterToSpectrum`. -/
def filterIndex (N T i : Nat) : Nat := if T % 2 = 0 then i else N / 4 - i

/-- The two nested loops of `applyFilterToSpectrum` on the working vector. -/
def filterLoop (N : Nat) (pastEnd : Nat → complex) (mask wave : List complex) : List complex :=
  List.foldl
    (fun w T => List.foldl
      (fun w i => w.set (N / 4 * T + i)
        (vecRead w pastEnd (N / 4 * T + i) * vecRead mask pastEnd (filterIndex N T i)))
      w (List.range (N / 4)))
    wave (List.range 4)

/-- The method `applyFilterToSpectrum`. -/
def applyFilterToSpectrum (E : Config) (isApplied : Bool) (s : FFTAudioStream) : FFTAudioStream :=
  if isApplied then
    let wave := filterLoop E.SAMPLES_TO_STREAM E.pastEndComplex s.filterShortComplexVector
      s.currentSampleWaveVector
    { s with currentSampleWaveVector := wave }
  else s

/-- The method `applyFilteredSignalToSound`: the real parts are written back
into the sample buffer.  A write at an index outside `samplesVector` is
dropped here, where the code overwrites the memory behind the buffer; the two
agree only while `sampleAccessesInRange` holds. -/
def applyFilteredSignalToSound (E : Config) (isApplied : Bool) (s : FFTAudioStream) :
    FFTAudioStream :=
  if isApplied then
    let samples := List.foldl
      (fun v i => v.set (streamIndex s.currentSample i)
        (toInt16 (vecRead s.currentSampleWaveVector E.pastEndComplex i).re))
      s.samplesVector (List.range E.SAMPLES_TO_STREAM)
    { s with samplesVector := samples }
  else s

/-- The processing part of `onGetData`, up to the write-back. -/
def processBlock (E : Config) (s : FFTAudioStream) : FFTAudioStream :=
  let s1 := getStreamSamples E s
  let s2 := { s1 with currentSampleWaveVector := E.Forward s1.currentSampleWaveVector }
  let s3 := { s2 with currentSampleCleanSpectrumVector := s2.currentSampleWaveVector }
  let s4 := applyFilterToSpectrum E true s3
  let s5 := { s4 with currentSampleSpectrumVector := s4.currentSampleWaveVector }
  let s6 := { s5 with currentSampleWaveVector := E.Inverse s5.currentSampleWaveVector }
  let s7 := { s6 with filteredWaveDataVector := s6.currentSampleWaveVector }
  applyFilteredSignalToSound E true s7

/-- The method `onGetData`: the new state, the chunk handed to the playback
host, and the returned flag (`true`: more data, `false`: end of stream). -/
def onGetData (E : Config) (s : FFTAudioStream) : FFTAudioStream × Chunk × Bool :=
  let s8 := processBlock E s
  let samples := s8.currentSample
  if sizeAdd s8.currentSample E.SAMPLES_TO_STREAM ≤ s8.samplesVector.length then
    ({ s8 with currentSample := sizeAdd s8.currentSample E.SAMPLES_TO_STREAM },
      ⟨samples, E.SAMPLES_TO_STREAM⟩, true)
  else
    ({ s8 with currentSample := s8.samplesVector.length },
      ⟨samples, sizeSub s8.samplesVector.length s8.currentSample⟩, false)

/-- The state after `n` block calls. -/
def blockCalls (E : Config) : Nat → FFTAudioStream → FFTAudioStream
  | 0, s => s
  | n + 1, s => (onGetData E (blockCalls E n s)).1

/-- Every access `samplesVector[currentSample + i]`, `i < SAMPLES_TO_STREAM`,
made by `getStreamSamples` and by `applyFilteredSignalToSound` during one block
call falls inside the sample buffer. -/
def sampleAccessesInRange (E : Config) (s : FFTAudioStream) : Prop :=
  ∀ i, i < E.SAMPLES_TO_STREAM → streamIndex s.currentSample i < s.samplesVector.length

instance (E : Config) (s : FFTAudioStream) : Decidable (sampleAccessesInRange E s) :=
  Nat.decidableBallLT _ _

/-- One block call with the accesses to the sample buffer checked: the result
of `onGetData` when all of them are inside the buffer, and `none`, no defined
result, when the loops read and write outside it. -/
def onGetDataChecked (E : Config) (s : FFTAudioStream) :
    Option (FFTAudioStream × Chunk × Bool) :=
  if sampleAccessesInRange E s then some (onGetData E s) else none

/-! ## Seek -/

/-- The time value `sf::Time`, a count of microseconds. -/
structure Time where
  microseconds : Int

/-- The conversion of an integer to `float`. -/
def floatOfInt (n : Int) : ℚ := roundBinary32 (n : ℚ)

/-- The quotient of two `float` values. -/
def floatDiv (a b : ℚ) : ℚ := roundBinary32 (a / b)

/-- The product of two `float` values. -/
def floatMul (a b : ℚ) : ℚ := roundBinary32 (a * b)

/-- The accessor `sf::Time::asSeconds`, `m_microseconds / 1000000.f`: the
count is converted to `float` and divided in `float`. -/
def Time.asSeconds (t : Time) : ℚ := floatDiv (floatOfInt t.microseconds) 1000000

/-- The `float` value `timeOffset.asSeconds() * getSampleRate() *
getChannelCount()` of `onSeek`: each count is converted to `float`, and the
two products are formed in `float`, from left to right. -/
def seekTarget (timeOffset : Time) (sampleRate channelCount : Nat) : ℚ :=
  floatMul (floatMul timeOffset.asSeconds (floatOfInt sampleRate)) (floatOfInt channelCount)

/-- The method `onSeek`.  The conversion `static_cast<std::size_t>` rounds
toward zero; it has no defined result, here `none`, when the rounded value is
not a value of `std::size_t`. -/
def onSeek (timeOffset : Time) (s : FFTAudioStream) : Option FFTAudioStream :=
  let target := truncate (seekTarget timeOffset s.sampleRate s.channelCount)
  if 0 ≤ target ∧ target < (sizeModulus : Int) then
    some { s with currentSample := target.toNat }
  else none

/-! ## Concrete configurations -/

/-- The scenario of the specification: block length 1024.  The transforms are
left as the identity and the memory behind the vectors holds zeros. -/
def scenarioConfig : Config := ⟨1024, id, id, fun _ => 0, fun _ => 0⟩

/-- The asset of the scenario: 2500 samples, mono, 44100 Hz. -/
def scenarioBuffer : SoundBuffer := ⟨List.replicate 2500 0, 1, 44100⟩

/-- The state right after loading the scenario asset. -/
def scenarioStart : FFTAudioStream := load scenarioConfig scenarioBuffer FFTAudioStream.fresh

/-- The mask invariant: length `SAMPLES_TO_STREAM / 4`, and bin `i` is `1+0i`
exactly when `low < i < high`. -/
def MaskConsistent (E : Config) (s : FFTAudioStream) : Prop :=
  s.filterShortComplexVector.length = E.SAMPLES_TO_STREAM / 4 ∧
  ∀ i, i < E.SAMPLES_TO_STREAM / 4 →
    s.filterShortComplexVector[i]? =
      some (if s.lowFilterValue < (i : ℚ) ∧ (i : ℚ) < s.highFilterValue
        then (⟨1, 0⟩ : complex) else ⟨0, 0⟩)

/-- Multiplication by the imaginary unit. -/
def complex.mulI (z : complex) : complex := ⟨-z.im, z.re⟩

/-- Sum of two complex numbers. -/
def complex.add (a b : complex) : complex := ⟨a.re + b.re, a.im + b.im⟩

/-- Difference of two complex numbers. -/
def complex.sub (a b : complex) : complex := ⟨a.re - b.re, a.im - b.im⟩

/-- Scaling by a real factor. -/
def complex.scale (c : ℚ) (z : complex) : complex := ⟨c * z.re, c * z.im⟩

/-- Modelled from the spec: the forward transform of the absent `fft.h` at
length 4, the discrete Fourier transform in the standard bin order (bin 0 is
the sum of the samples); other lengths are left alone. -/
def dft4 : List complex → List complex
  | [a, b, c, d] =>
    [ (a.add c).add (b.add d),
      (a.sub c).sub (b.sub d).mulI,
      (a.add c).sub (b.add d),
      (a.sub c).add (b.sub d).mulI ]
  | v => v

/-- Modelled from the spec: the inverse transform of the absent `fft.h` at
length 4, scaled by `1 / 4` so that it undoes `dft4`. -/
def idft4 : List complex → List complex
  | [a, b, c, d] =>
    [ complex.scale (1 / 4) ((a.add c).add (b.add d)),
      complex.scale (1 / 4) ((a.sub c).add (b.sub d).mulI),
      complex.scale (1 / 4) ((a.add c).sub (b.add d)),
      complex.scale (1 / 4) ((a.sub c).sub (b.sub d).mulI) ]
  | v => v

/-- A configuration with block length 4 and the exact transforms of that
length; `pc` is the memory found behind a complex vector. -/
def dftConfig (pc : Nat → complex) : Config := ⟨4, dft4, idft4, pc, fun _ => 0⟩

/-! ## Auxiliary facts -/

/-- A loop that overwrites the entries `b, b + 1, …, b + n - 1`, each from its
own previous value, keeps the length and changes exactly those entries. -/
theorem foldl_set_spec {α : Type} (p : Nat → α) (b : Nat) (G : Nat → α → α) (n : Nat)
    (w : List α) :
    (List.foldl (fun w i => w.set (b + i) (G i (vecRead w p (b + i)))) w (List.range n)).length
        = w.length ∧
    ∀ k, (List.foldl (fun w i => w.set (b + i) (G i (vecRead w p (b + i)))) w (List.range n))[k]? =
      if b ≤ k ∧ k < b + n ∧ k < w.length then some (G (k - b) (vecRead w p k)) else w[k]? := by
  induction n with
  | zero =>
    refine ⟨by simp, fun k => ?_⟩
    have h : ¬ (b ≤ k ∧ k < b + 0 ∧ k < w.length) := by omega
    simp only [List.range_zero, List.foldl_nil]
    rw [if_neg h]
  | succ n ih =>
    rw [List.range_succ, List.foldl_append]
    obtain ⟨hl, hk⟩ := ih
    generalize List.foldl (fun w i => w.set (b + i) (G i (vecRead w p (b + i)))) w (List.range n)
      = R at hl hk
    have hread : vecRead R p (b + n) = vecRead w p (b + n) := by
      unfold vecRead
      rw [hk]
      simp
    refine ⟨by simp [hl], fun k => ?_⟩
    simp only [List.foldl_cons, List.foldl_nil]
    rw [List.getElem?_set, hread, hk, hl]
    by_cases h1 : b + n = k
    · subst h1
      by_cases h2 : b + n < w.length
      · simp [h2]
      · have h5 : w[b + n]? = none := List.getElem?_eq_none (by omega)
        simp [h2, h5]
    · simp only [h1, if_false]
      by_cases h3 : b ≤ k ∧ k < b + n ∧ k < w.length
      · have h4 : b ≤ k ∧ k < b + (n + 1) ∧ k < w.length := by omega
        rw [if_pos h3, if_pos h4]
      · have h4 : ¬ (b ≤ k ∧ k < b + (n + 1) ∧ k < w.length) := by omega
        rw [if_neg h3, if_neg h4]

theorem filterLoop_spec (N : Nat) (p : Nat → complex) (mask w : List complex) :
    (filterLoop N p mask w).length = w.length ∧
    ∀ T i, T < 4 → i < N / 4 → N / 4 * T + i < w.length →
      (filterLoop N p mask w)[N / 4 * T + i]? =
        some (vecRead w p (N / 4 * T + i) * vecRead mask p (filterIndex N T i)) := by
  have inner := fun T w => foldl_set_spec p (N / 4 * T)
    (fun i x => x * vecRead mask p (filterIndex N T i)) (N / 4) w
  have hr : List.range 4 = [0, 1, 2, 3] := by decide
  unfold filterLoop
  rw [hr]
  simp only [List.foldl_cons, List.foldl_nil]
  obtain ⟨l0, k0⟩ := inner 0 w
  generalize List.foldl (fun w i => w.set (N / 4 * 0 + i)
    (vecRead w p (N / 4 * 0 + i) * vecRead mask p (filterIndex N 0 i))) w (List.range (N / 4))
    = w1 at l0 k0 ⊢
  obtain ⟨l1, k1⟩ := inner 1 w1
  generalize List.foldl (fun w i => w.set (N / 4 * 1 + i)
    (vecRead w p (N / 4 * 1 + i) * vecRead mask p (filterIndex N 1 i))) w1 (List.range (N / 4))
    = w2 at l1 k1 ⊢
  obtain ⟨l2, k2⟩ := inner 2 w2
  generalize List.foldl (fun w i => w.set (N / 4 * 2 + i)
    (vecRead w p (N / 4 * 2 + i) * vecRead mask p (filterIndex N 2 i))) w2 (List.range (N / 4))
    = w3 at l2 k2 ⊢
  obtain ⟨l3, k3⟩ := inner 3 w3
  generalize List.foldl (fun w i => w.set (N / 4 * 3 + i)
    (vecRead w p (N / 4 * 3 + i) * vecRead mask p (filterIndex N 3 i))) w3 (List.range (N / 4))
    = w4 at l3 k3 ⊢
  refine ⟨by omega, fun T i hT hi hlen => ?_⟩
  have e : N / 4 * T + i - N / 4 * T = i := Nat.add_sub_cancel_left _ _
  have r1 : ∀ k, ¬ (N / 4 * 0 ≤ k ∧ k < N / 4 * 0 + N / 4 ∧ k < w.length) →
      vecRead w1 p k = vecRead w p k := by
    intro k hk
    unfold vecRead
    rw [k0 k, if_neg hk]
  have r2 : ∀ k, ¬ (N / 4 * 1 ≤ k ∧ k < N / 4 * 1 + N / 4 ∧ k < w1.length) →
      vecRead w2 p k = vecRead w1 p k := by
    intro k hk
    unfold vecRead
    rw [k1 k, if_neg hk]
  have r3 : ∀ k, ¬ (N / 4 * 2 ≤ k ∧ k < N / 4 * 2 + N / 4 ∧ k < w2.length) →
      vecRead w3 p k = vecRead w2 p k := by
    intro k hk
    unfold vecRead
    rw [k2 k, if_neg hk]
  interval_cases T
  · rw [k3, if_neg (by omega), k2, if_neg (by omega), k1, if_neg (by omega), k0,
      if_pos (by omega), e]
  · rw [k3, if_neg (by omega), k2, if_neg (by omega), k1, if_pos (by omega), e,
      r1 _ (by omega)]
  · rw [k3, if_neg (by omega), k2, if_pos (by omega), e, r2 _ (by omega), r1 _ (by omega)]
  · rw [k3, if_pos (by omega), e, r3 _ (by omega), r2 _ (by omega), r1 _ (by omega)]
theorem resize_length {α : Type} (xs : List α) (n : Nat) (fill : α) :
    (resize xs n fill).length = n := by
  simp [resize]
  omega

theorem generateFilterVector_consistent (E : Config) (s : FFTAudioStream) :
    MaskConsistent E (generateFilterVector E s) := by
  have h := foldl_set_spec (fun _ => (0 : complex)) 0
    (fun i _ => filterGain s.lowFilterValue s.highFilterValue i) (E.SAMPLES_TO_STREAM / 4)
    (resize s.filterShortComplexVector (E.SAMPLES_TO_STREAM / 4) 0)
  simp only [Nat.zero_add, resize_length] at h
  obtain ⟨hl, hk⟩ := h
  refine ⟨hl, fun i hi => ?_⟩
  show (List.foldl _ _ _)[i]? = _
  rw [hk i, if_pos ⟨Nat.zero_le _, hi, hi⟩]
  simp only [filterGain, complex.ofReal, Nat.sub_zero, gt_iff_lt]
  have hlow : (generateFilterVector E s).lowFilterValue = s.lowFilterValue := rfl
  have hhigh : (generateFilterVector E s).highFilterValue = s.highFilterValue := rfl
  rw [hlow, hhigh]
  by_cases hc : s.lowFilterValue < (i : ℚ) ∧ (i : ℚ) < s.highFilterValue
  · simp [hc]
  · simp [hc]

theorem load_consistent (E : Config) (buffer : SoundBuffer) (s : FFTAudioStream) :
    MaskConsistent E (load E buffer s) :=
  generateFilterVector_consistent E _

theorem run_consistent (E : Config) (s : FFTAudioStream) (c : FilterCall)
    (h : MaskConsistent E s) : MaskConsistent E (c.run E s) := by
  cases c with
  | setLow v =>
    simp only [FilterCall.run, setLowFilterValue]
    split
    · exact generateFilterVector_consistent E _
    · exact h
  | setHigh v =>
    simp only [FilterCall.run, setHighFilterValue]
    split
    · exact generateFilterVector_consistent E _
    · exact h

theorem foldl_run_consistent (E : Config) (calls : List FilterCall) (s : FFTAudioStream)
    (h : MaskConsistent E s) : MaskConsistent E (calls.foldl (FilterCall.run E) s) := by
  induction calls generalizing s with
  | nil => exact h
  | cons c cs ih => exact ih _ (run_consistent E s c h)

theorem mask_all_zero (E : Config) (s : FFTAudioStream) (h : MaskConsistent E s)
    (hlh : s.highFilterValue ≤ s.lowFilterValue) :
    ∀ c ∈ s.filterShortComplexVector, c = (⟨0, 0⟩ : complex) := by
  intro c hc
  obtain ⟨i, hi⟩ := List.mem_iff_getElem?.mp hc
  have hlt : i < s.filterShortComplexVector.length := by
    by_contra hge
    rw [List.getElem?_eq_none (by omega)] at hi
    exact Option.noConfusion hi
  rw [h.2 i (h.1 ▸ hlt)] at hi
  have hn : ¬ (s.lowFilterValue < (i : ℚ) ∧ (i : ℚ) < s.highFilterValue) := by
    rintro ⟨h1, h2⟩
    exact absurd (lt_trans h1 h2) (not_lt.mpr hlh)
  rw [if_neg hn] at hi
  exact (Option.some.inj hi).symm

theorem foldl_set_length {α : Type} (f : Nat → Nat) (g : Nat → α) (l : List Nat) (v : List α) :
    (List.foldl (fun v i => v.set (f i) (g i)) v l).length = v.length := by
  induction l generalizing v with
  | nil => rfl
  | cons i l ih => simp [ih]

theorem processBlock_currentSample (E : Config) (s : FFTAudioStream) :
    (processBlock E s).currentSample = s.currentSample := by
  simp [processBlock, applyFilteredSignalToSound, applyFilterToSpectrum, getStreamSamples]

theorem processBlock_length (E : Config) (s : FFTAudioStream) :
    (processBlock E s).samplesVector.length = s.samplesVector.length := by
  simp only [processBlock, applyFilteredSignalToSound, applyFilterToSpectrum, getStreamSamples,
    if_true]
  exact foldl_set_length _ _ _ _

theorem onGetData_more (E : Config) (s : FFTAudioStream)
    (h : s.currentSample + E.SAMPLES_TO_STREAM ≤ s.samplesVector.length)
    (hb : s.samplesVector.length < sizeModulus) :
    onGetData E s =
      ({ processBlock E s with currentSample := s.currentSample + E.SAMPLES_TO_STREAM },
        ⟨s.currentSample, E.SAMPLES_TO_STREAM⟩, true) := by
  have hadd : sizeAdd s.currentSample E.SAMPLES_TO_STREAM
      = s.currentSample + E.SAMPLES_TO_STREAM :=
    Nat.mod_eq_of_lt (lt_of_le_of_lt h hb)
  simp only [onGetData, processBlock_currentSample, processBlock_length, hadd, if_pos h]

theorem onGetData_last (E : Config) (s : FFTAudioStream)
    (h : ¬ s.currentSample + E.SAMPLES_TO_STREAM ≤ s.samplesVector.length)
    (ho : s.currentSample ≤ s.samplesVector.length)
    (hb : s.samplesVector.length + E.SAMPLES_TO_STREAM < sizeModulus) :
    onGetData E s =
      ({ processBlock E s with currentSample := s.samplesVector.length },
        ⟨s.currentSample, s.samplesVector.length - s.currentSample⟩, false) := by
  have hadd : sizeAdd s.currentSample E.SAMPLES_TO_STREAM
      = s.currentSample + E.SAMPLES_TO_STREAM :=
    Nat.mod_eq_of_lt (by omega)
  have hsub : sizeSub s.samplesVector.length s.currentSample
      = s.samplesVector.length - s.currentSample := by
    unfold sizeSub
    rw [Nat.mod_eq_of_lt (show s.samplesVector.length < sizeModulus by omega),
      Nat.mod_eq_of_lt (show s.currentSample < sizeModulus by omega)]
    have e : s.samplesVector.length + sizeModulus - s.currentSample
        = (s.samplesVector.length - s.currentSample) + sizeModulus := by omega
    rw [e, Nat.add_mod_right]
    exact Nat.mod_eq_of_lt (by omega)
  simp only [onGetData, processBlock_currentSample, processBlock_length, hadd, hsub, if_neg h]

theorem blockCalls_offset (E : Config) (s : FFTAudioStream) (h0 : s.currentSample = 0)
    (hb : s.samplesVector.length < sizeModulus) (j : Nat)
    (hj : j * E.SAMPLES_TO_STREAM ≤ s.samplesVector.length) :
    (blockCalls E j s).currentSample = j * E.SAMPLES_TO_STREAM ∧
    (blockCalls E j s).samplesVector.length = s.samplesVector.length := by
  induction j with
  | zero => exact ⟨by simp [blockCalls, h0], rfl⟩
  | succ j ih =>
    have hj2 : j * E.SAMPLES_TO_STREAM + E.SAMPLES_TO_STREAM ≤ s.samplesVector.length := by
      rw [Nat.succ_mul] at hj
      exact hj
    obtain ⟨hc, hl⟩ := ih (by omega)
    have hmore := onGetData_more E (blockCalls E j s) (by rw [hc, hl]; exact hj2) (by rw [hl]; exact hb)
    show (onGetData E (blockCalls E j s)).1.currentSample = _ ∧
      (onGetData E (blockCalls E j s)).1.samplesVector.length = _
    rw [hmore]
    refine ⟨?_, ?_⟩
    · show (blockCalls E j s).currentSample + E.SAMPLES_TO_STREAM = _
      rw [hc, Nat.succ_mul]
    · show (processBlock E (blockCalls E j s)).samplesVector.length = _
      rw [processBlock_length, hl]

theorem load_offset (E : Config) (buffer : SoundBuffer) (s : FFTAudioStream) :
    (load E buffer s).currentSample = 0 ∧ (load E buffer s).samplesVector = buffer.samples :=
  ⟨rfl, rfl⟩

theorem truncate_of_nonneg (x : ℚ) (h : 0 ≤ x) : truncate x = Int.floor x := if_pos h

theorem roundHalfEven_near (x : ℚ) (m : Int) (h1 : (m : ℚ) - 1 / 2 < x)
    (h2 : x < (m : ℚ) + 1 / 2) : roundHalfEven x = m := by
  unfold roundHalfEven
  by_cases hx : (m : ℚ) ≤ x
  · have hf : Int.floor x = m := Int.floor_eq_iff.mpr ⟨hx, by linarith⟩
    rw [hf, if_pos (by linarith)]
  · have hx2 : x < (m : ℚ) := not_le.mp hx
    have hf : Int.floor x = m - 1 :=
      Int.floor_eq_iff.mpr ⟨by push_cast; linarith, by push_cast; linarith⟩
    rw [hf]
    have h3 : ¬ (x - ((m - 1 : Int) : ℚ) < 1 / 2) := by push_cast; linarith
    have h4 : 1 / 2 < x - ((m - 1 : Int) : ℚ) := by push_cast; linarith
    rw [if_neg h3, if_pos h4]
    ring

theorem roundHalfEven_tie_even (x : ℚ) (m : Int) (h : x = (m : ℚ) + 1 / 2) (hm : m % 2 = 0) :
    roundHalfEven x = m := by
  unfold roundHalfEven
  have hf : Int.floor x = m := Int.floor_eq_iff.mpr ⟨by linarith, by linarith⟩
  rw [hf, if_neg (by linarith), if_neg (by linarith), if_pos hm]

theorem roundHalfEven_nonneg (x : ℚ) (hx : 0 ≤ x) : 0 ≤ roundHalfEven x := by
  have hf : 0 ≤ Int.floor x := Int.floor_nonneg.mpr hx
  unfold roundHalfEven
  split_ifs <;> omega

theorem roundBinary32_of (x : ℚ) (e m : Int) (hx : 0 < x) (he : -126 ≤ e)
    (hlo : (2 : ℚ) ^ e ≤ x) (hhi : x < (2 : ℚ) ^ (e + 1))
    (hm : roundHalfEven (x / 2 ^ (e - 23)) = m) :
    roundBinary32 x = (m : ℚ) * 2 ^ (e - 23) := by
  have hlog : Int.log 2 x = e := by
    apply le_antisymm
    · have := (Int.lt_zpow_iff_log_lt (R := ℚ) (b := 2) (by norm_num) hx).mp
        (by exact_mod_cast hhi : x < ((2 : ℕ) : ℚ) ^ (e + 1))
      omega
    · exact (Int.zpow_le_iff_le_log (R := ℚ) (b := 2) (by norm_num) hx).mp (by exact_mod_cast hlo)
  unfold roundBinary32 roundBinary32Pos
  rw [if_neg (not_lt.mpr hx.le), hlog, max_eq_left he, hm]

theorem roundBinary32_nonneg (x : ℚ) (hx : 0 ≤ x) : 0 ≤ roundBinary32 x := by
  unfold roundBinary32 roundBinary32Pos
  rw [if_neg (not_lt.mpr hx)]
  apply mul_nonneg
  · exact_mod_cast roundHalfEven_nonneg _ (div_nonneg hx (zpow_nonneg (by norm_num) _))
  · exact zpow_nonneg (by norm_num) _

theorem seekTarget_nonneg (t : Time) (sampleRate channelCount : Nat)
    (ht : 0 ≤ t.microseconds) : 0 ≤ seekTarget t sampleRate channelCount := by
  have h1 : (0 : ℚ) ≤ floatOfInt t.microseconds :=
    roundBinary32_nonneg _ (by exact_mod_cast ht)
  have h2 : (0 : ℚ) ≤ t.asSeconds := roundBinary32_nonneg _ (div_nonneg h1 (by norm_num))
  have h3 : (0 : ℚ) ≤ floatOfInt sampleRate := roundBinary32_nonneg _ (by positivity)
  have h4 : (0 : ℚ) ≤ floatOfInt channelCount := roundBinary32_nonneg _ (by positivity)
  exact roundBinary32_nonneg _ (mul_nonneg (roundBinary32_nonneg _ (mul_nonneg h2 h3)) h4)

theorem seekTarget_one_second : seekTarget ⟨1000000⟩ 44100 1 = 44100 := by
  have h1 : roundBinary32 (1000000 : ℚ) = 1000000 := by
    rw [roundBinary32_of 1000000 19 16000000 (by norm_num) (by norm_num) (by norm_num)
      (by norm_num) (roundHalfEven_near _ _ (by norm_num) (by norm_num))]
    norm_num
  have h2 : roundBinary32 (1 : ℚ) = 1 := by
    rw [roundBinary32_of 1 0 8388608 (by norm_num) (by norm_num) (by norm_num)
      (by norm_num) (roundHalfEven_near _ _ (by norm_num) (by norm_num))]
    norm_num
  have h3 : roundBinary32 (44100 : ℚ) = 44100 := by
    rw [roundBinary32_of 44100 15 11289600 (by norm_num) (by norm_num) (by norm_num)
      (by norm_num) (roundHalfEven_near _ _ (by norm_num) (by norm_num))]
    norm_num
  simp only [seekTarget, Time.asSeconds, floatMul, floatDiv, floatOfInt, Int.cast_ofNat,
    Int.cast_natCast, Nat.cast_ofNat, Nat.cast_one, Int.cast_one, h1, h2, h3, div_self, ne_eq,
    OfNat.ofNat_ne_zero, not_false_eq_true, one_mul, mul_one]

theorem seekTarget_mono_example : seekTarget ⟨530000⟩ 44100 1 = 11966975 / 512 := by
  have h1 : roundBinary32 (530000 : ℚ) = 530000 := by
    rw [roundBinary32_of 530000 19 8480000 (by norm_num) (by norm_num) (by norm_num)
      (by norm_num) (roundHalfEven_near _ _ (by norm_num) (by norm_num))]
    norm_num
  have h2 : roundBinary32 ((530000 : ℚ) / 1000000) = 2222981 / 4194304 := by
    rw [roundBinary32_of _ (-1) 8891924 (by norm_num) (by norm_num) (by norm_num)
      (by norm_num) (roundHalfEven_near _ _ (by norm_num) (by norm_num))]
    norm_num
  have h3 : roundBinary32 (44100 : ℚ) = 44100 := by
    rw [roundBinary32_of 44100 15 11289600 (by norm_num) (by norm_num) (by norm_num)
      (by norm_num) (roundHalfEven_near _ _ (by norm_num) (by norm_num))]
    norm_num
  have h4 : roundBinary32 ((2222981 : ℚ) / 4194304 * 44100) = 11966975 / 512 := by
    rw [roundBinary32_of _ 14 11966975 (by norm_num) (by norm_num) (by norm_num)
      (by norm_num) (roundHalfEven_near _ _ (by norm_num) (by norm_num))]
    norm_num
  have h5 : roundBinary32 (1 : ℚ) = 1 := by
    rw [roundBinary32_of 1 0 8388608 (by norm_num) (by norm_num) (by norm_num)
      (by norm_num) (roundHalfEven_near _ _ (by norm_num) (by norm_num))]
    norm_num
  have h6 : roundBinary32 ((11966975 : ℚ) / 512) = 11966975 / 512 := by
    rw [roundBinary32_of _ 14 11966975 (by norm_num) (by norm_num) (by norm_num)
      (by norm_num) (roundHalfEven_near _ _ (by norm_num) (by norm_num))]
    norm_num
  simp only [seekTarget, Time.asSeconds, floatMul, floatDiv, floatOfInt, Int.cast_ofNat,
    Int.cast_natCast, Nat.cast_ofNat, Nat.cast_one, Int.cast_one, h1, h2, h3, h4, h5, h6, mul_one]

theorem seekTarget_stereo_example : seekTarget ⟨381250000⟩ 44100 2 = 33626248 := by
  have h1 : roundBinary32 (381250000 : ℚ) = 381249984 := by
    rw [roundBinary32_of 381250000 28 11914062 (by norm_num) (by norm_num) (by norm_num)
      (by norm_num) (roundHalfEven_tie_even _ _ (by norm_num) (by norm_num))]
    norm_num
  have h2 : roundBinary32 ((381249984 : ℚ) / 1000000) = 12492799 / 32768 := by
    rw [roundBinary32_of _ 8 12492799 (by norm_num) (by norm_num) (by norm_num)
      (by norm_num) (roundHalfEven_near _ _ (by norm_num) (by norm_num))]
    norm_num
  have h3 : roundBinary32 (44100 : ℚ) = 44100 := by
    rw [roundBinary32_of 44100 15 11289600 (by norm_num) (by norm_num) (by norm_num)
      (by norm_num) (roundHalfEven_near _ _ (by norm_num) (by norm_num))]
    norm_num
  have h4 : roundBinary32 ((12492799 : ℚ) / 32768 * 44100) = 16813124 := by
    rw [roundBinary32_of _ 24 8406562 (by norm_num) (by norm_num) (by norm_num)
      (by norm_num) (roundHalfEven_near _ _ (by norm_num) (by norm_num))]
    norm_num
  have h5 : roundBinary32 (2 : ℚ) = 2 := by
    rw [roundBinary32_of 2 1 8388608 (by norm_num) (by norm_num) (by norm_num)
      (by norm_num) (roundHalfEven_near _ _ (by norm_num) (by norm_num))]
    norm_num
  have h6 : roundBinary32 ((16813124 : ℚ) * 2) = 33626248 := by
    rw [roundBinary32_of _ 25 8406562 (by norm_num) (by norm_num) (by norm_num)
      (by norm_num) (roundHalfEven_near _ _ (by norm_num) (by norm_num))]
    norm_num
  simp only [seekTarget, Time.asSeconds, floatMul, floatDiv, floatOfInt, Int.cast_ofNat,
    Int.cast_natCast, Nat.cast_ofNat, h1, h2, h3, h4, h5, h6]

theorem roundHalfEven_le (x : ℚ) : roundHalfEven x ≤ Int.floor x + 1 := by
  unfold roundHalfEven
  split_ifs <;> omega

theorem roundBinary32_le_zpow (x : ℚ) (k : Int) (hx : 0 ≤ x) (hk : -125 ≤ k)
    (h : x ≤ (2 : ℚ) ^ k) : roundBinary32 x ≤ (2 : ℚ) ^ k := by
  have h2 : (0 : ℚ) < 2 := by norm_num
  rcases eq_or_lt_of_le hx with h0 | hpos
  · subst h0
    have hz : roundBinary32 0 = 0 := by
      unfold roundBinary32 roundBinary32Pos
      rw [if_neg (lt_irrefl _), zero_div, roundHalfEven_near 0 0 (by norm_num) (by norm_num)]
      simp
    rw [hz]
    exact zpow_nonneg h2.le _
  rcases eq_or_lt_of_le h with heq | hlt
  · rw [heq, roundBinary32_of ((2 : ℚ) ^ k) k 8388608 (zpow_pos h2 _) (by omega) le_rfl
      (zpow_lt_zpow_right₀ (by norm_num) (by omega))
      (roundHalfEven_near _ _
        (by rw [← zpow_sub₀ h2.ne']; norm_num)
        (by rw [← zpow_sub₀ h2.ne']; norm_num))]
    rw [zpow_sub₀ h2.ne']
    norm_num
    exact le_of_eq (mul_div_cancel₀ _ (by norm_num))
  · have hlog : Int.log 2 x < k :=
      (Int.lt_zpow_iff_log_lt (R := ℚ) (b := 2) (by norm_num) hpos).mp (by exact_mod_cast hlt)
    have hE : max (Int.log 2 x) (-126) + 1 ≤ k := by
      rcases max_cases (Int.log 2 x) (-126) with ⟨hm, -⟩ | ⟨hm, -⟩ <;> omega
    have hxE : x < (2 : ℚ) ^ (max (Int.log 2 x) (-126) + 1) := by
      have := Int.lt_zpow_succ_log_self (R := ℚ) (b := 2) (by norm_num) x
      refine lt_of_lt_of_le (by exact_mod_cast this) ?_
      exact zpow_le_zpow_right₀ (by norm_num) (by have := le_max_left (Int.log 2 x) (-126); omega)
    unfold roundBinary32 roundBinary32Pos
    rw [if_neg (not_lt.mpr hx)]
    generalize max (Int.log 2 x) (-126) = E at hE hxE ⊢
    have hulp : (0 : ℚ) < 2 ^ (E - 23) := zpow_pos h2 _
    have hy : x / 2 ^ (E - 23) < 16777216 := by
      rw [div_lt_iff₀ hulp]
      have e : (16777216 : ℚ) * 2 ^ (E - 23) = 2 ^ (E + 1) := by
        rw [show E + 1 = 24 + (E - 23) by ring, zpow_add₀ h2.ne']
        norm_num
      rw [e]
      exact hxE
    have hfl : Int.floor (x / 2 ^ (E - 23)) < 16777216 := Int.floor_lt.mpr (by exact_mod_cast hy)
    have hm : roundHalfEven (x / 2 ^ (E - 23)) ≤ 16777216 := by
      have := roundHalfEven_le (x / 2 ^ (E - 23))
      omega
    have hmq : ((roundHalfEven (x / 2 ^ (E - 23)) : Int) : ℚ) ≤ 16777216 := by exact_mod_cast hm
    calc ((roundHalfEven (x / 2 ^ (E - 23)) : Int) : ℚ) * 2 ^ (E - 23)
        ≤ 16777216 * 2 ^ (E - 23) := mul_le_mul_of_nonneg_right hmq hulp.le
      _ = 2 ^ (E + 1) := by
        rw [show E + 1 = 24 + (E - 23) by ring, zpow_add₀ h2.ne']
        norm_num
      _ ≤ 2 ^ k := zpow_le_zpow_right₀ (by norm_num) hE

theorem seekTarget_le (t : Time) (sampleRate channelCount : Nat)
    (ht : 0 ≤ t.microseconds) (hus : t.microseconds < 2 ^ 63)
    (hrate : sampleRate < 2 ^ 32) (hch : channelCount < 2 ^ 32) :
    seekTarget t sampleRate channelCount ≤ 2 ^ 108 := by
  have h1 : (0 : ℚ) ≤ (t.microseconds : ℚ) := by exact_mod_cast ht
  have h1b : (t.microseconds : ℚ) ≤ 2 ^ (63 : Int) := by
    have : (t.microseconds : ℚ) < 2 ^ 63 := by exact_mod_cast hus
    norm_num at this ⊢
    linarith
  have a0 : (0 : ℚ) ≤ floatOfInt t.microseconds := roundBinary32_nonneg _ h1
  have a1 : floatOfInt t.microseconds ≤ 2 ^ (63 : Int) :=
    roundBinary32_le_zpow _ 63 h1 (by norm_num) h1b
  have b0 : (0 : ℚ) ≤ floatOfInt t.microseconds / 1000000 := div_nonneg a0 (by norm_num)
  have b1 : floatOfInt t.microseconds / 1000000 ≤ 2 ^ (44 : Int) := by
    rw [div_le_iff₀ (by norm_num)]
    refine le_trans a1 ?_
    norm_num
  have s0 : (0 : ℚ) ≤ t.asSeconds := roundBinary32_nonneg _ b0
  have s1 : t.asSeconds ≤ 2 ^ (44 : Int) := roundBinary32_le_zpow _ 44 b0 (by norm_num) b1
  have r0 : (0 : ℚ) ≤ ((sampleRate : Int) : ℚ) := by positivity
  have r1 : ((sampleRate : Int) : ℚ) ≤ 2 ^ (32 : Int) := by
    have : (sampleRate : ℚ) < 2 ^ 32 := by exact_mod_cast hrate
    norm_num at this ⊢
    linarith
  have fr0 : (0 : ℚ) ≤ floatOfInt sampleRate := roundBinary32_nonneg _ r0
  have fr1 : floatOfInt sampleRate ≤ 2 ^ (32 : Int) := roundBinary32_le_zpow _ 32 r0 (by norm_num) r1
  have c0 : (0 : ℚ) ≤ ((channelCount : Int) : ℚ) := by positivity
  have c1 : ((channelCount : Int) : ℚ) ≤ 2 ^ (32 : Int) := by
    have : (channelCount : ℚ) < 2 ^ 32 := by exact_mod_cast hch
    norm_num at this ⊢
    linarith
  have fc0 : (0 : ℚ) ≤ floatOfInt channelCount := roundBinary32_nonneg _ c0
  have fc1 : floatOfInt channelCount ≤ 2 ^ (32 : Int) := roundBinary32_le_zpow _ 32 c0 (by norm_num) c1
  have p0 : (0 : ℚ) ≤ t.asSeconds * floatOfInt sampleRate := mul_nonneg s0 fr0
  have p1 : t.asSeconds * floatOfInt sampleRate ≤ 2 ^ (76 : Int) := by
    have := mul_le_mul s1 fr1 fr0 (by norm_num : (0 : ℚ) ≤ 2 ^ (44 : Int))
    refine le_trans this ?_
    norm_num
  have q0 : (0 : ℚ) ≤ floatMul t.asSeconds (floatOfInt sampleRate) := roundBinary32_nonneg _ p0
  have q1 : floatMul t.asSeconds (floatOfInt sampleRate) ≤ 2 ^ (76 : Int) :=
    roundBinary32_le_zpow _ 76 p0 (by norm_num) p1
  have w0 : (0 : ℚ) ≤ floatMul t.asSeconds (floatOfInt sampleRate) * floatOfInt channelCount :=
    mul_nonneg q0 fc0
  have w1 : floatMul t.asSeconds (floatOfInt sampleRate) * floatOfInt channelCount
      ≤ 2 ^ (108 : Int) := by
    have := mul_le_mul q1 fc1 fc0 (by norm_num : (0 : ℚ) ≤ 2 ^ (76 : Int))
    refine le_trans this ?_
    norm_num
  have := roundBinary32_le_zpow _ 108 w0 (by norm_num) w1
  norm_num at this ⊢
  exact this

theorem truncate_nonneg (x : ℚ) (h : 0 ≤ x) : 0 ≤ truncate x := by
  rw [truncate_of_nonneg x h]
  exact Int.floor_nonneg.mpr h

theorem onSeek_of_fit (t : Time) (s : FFTAudioStream)
    (h0 : 0 ≤ truncate (seekTarget t s.sampleRate s.channelCount))
    (hfit : truncate (seekTarget t s.sampleRate s.channelCount) < (sizeModulus : Int)) :
    onSeek t s = some { s with currentSample :=
      (truncate (seekTarget t s.sampleRate s.channelCount)).toNat } := by
  unfold onSeek
  simp only []
  rw [if_pos ⟨h0, hfit⟩]

theorem sampleAccesses_of_le (E : Config) (s : FFTAudioStream)
    (h : s.currentSample + E.SAMPLES_TO_STREAM ≤ s.samplesVector.length)
    (hS : s.samplesVector.length < sizeModulus) : sampleAccessesInRange E s := by
  intro i hi
  have hmod : streamIndex s.currentSample i = s.currentSample + i :=
    Nat.mod_eq_of_lt (by omega)
  rw [hmod]
  omega

theorem sampleAccesses_past_end (E : Config) (s : FFTAudioStream)
    (ho : s.currentSample ≤ s.samplesVector.length)
    (h : ¬ s.currentSample + E.SAMPLES_TO_STREAM ≤ s.samplesVector.length)
    (hS : s.samplesVector.length < sizeModulus) :
    s.samplesVector.length - s.currentSample < E.SAMPLES_TO_STREAM ∧
    streamIndex s.currentSample (s.samplesVector.length - s.currentSample)
      = s.samplesVector.length ∧
    ¬ sampleAccessesInRange E s := by
  have hi : s.samplesVector.length - s.currentSample < E.SAMPLES_TO_STREAM := by omega
  have hidx : streamIndex s.currentSample (s.samplesVector.length - s.currentSample)
      = s.samplesVector.length := by
    have e : s.currentSample + (s.samplesVector.length - s.currentSample)
        = s.samplesVector.length := by omega
    show (s.currentSample + (s.samplesVector.length - s.currentSample)) % sizeModulus = _
    rw [e]
    exact Nat.mod_eq_of_lt hS
  refine ⟨hi, hidx, fun hall => ?_⟩
  have := hall _ hi
  rw [hidx] at this
  exact absurd this (lt_irrefl _)

theorem scenarioStart_length : scenarioStart.samplesVector.length = 2500 := by
  have h : scenarioStart.samplesVector = List.replicate 2500 0 := rfl
  rw [h, List.length_replicate]

theorem scenarioStart_rate :
    scenarioStart.sampleRate = 44100 ∧ scenarioStart.channelCount = 1 := ⟨rfl, rfl⟩

theorem scenarioBuffer_bound :
    scenarioBuffer.samples.length + scenarioConfig.SAMPLES_TO_STREAM < sizeModulus := by
  have h : scenarioBuffer.samples.length = 2500 := List.length_replicate _ _
  have hN : scenarioConfig.SAMPLES_TO_STREAM = 1024 := rfl
  rw [h, hN]
  norm_num [sizeModulus]

theorem complex.mul_one_eq (z : complex) : z * (⟨1, 0⟩ : complex) = z := by
  show complex.mul z ⟨1, 0⟩ = z
  cases z
  simp [complex.mul]

theorem complex.mul_zero_eq (z : complex) : z * (⟨0, 0⟩ : complex) = ⟨0, 0⟩ := by
  show complex.mul z ⟨0, 0⟩ = ⟨0, 0⟩
  simp [complex.mul]

theorem vecRead_of_lt {α : Type} (xs : List α) (p : Nat → α) (j : Nat) (h : j < xs.length) :
    xs[j]? = some (vecRead xs p j) := by
  unfold vecRead
  rw [List.getElem?_eq_getElem h]
  rfl

theorem vecRead_of_ge {α : Type} (xs : List α) (p : Nat → α) (j : Nat) (h : xs.length ≤ j) :
    vecRead xs p j = p j := by
  unfold vecRead
  rw [List.getElem?_eq_none h]
  rfl

theorem getStreamSamples_spec (E : Config) (s : FFTAudioStream) :
    (getStreamSamples E s).currentSampleWaveVector.length = s.currentSampleWaveVector.length ∧
    ∀ i, i < E.SAMPLES_TO_STREAM → i < s.currentSampleWaveVector.length →
      (getStreamSamples E s).currentSampleWaveVector[i]? =
        some (complex.ofReal
          ((vecRead s.samplesVector E.pastEndSample (streamIndex s.currentSample i) : Int) : ℚ)) := by
  have h := foldl_set_spec E.pastEndComplex 0
    (fun i _ => complex.ofReal
      ((vecRead s.samplesVector E.pastEndSample (streamIndex s.currentSample i) : Int) : ℚ))
    E.SAMPLES_TO_STREAM s.currentSampleWaveVector
  simp only [Nat.zero_add] at h
  obtain ⟨hl, hk⟩ := h
  refine ⟨hl, fun i hi hlen => ?_⟩
  show (List.foldl _ _ _)[i]? = _
  rw [hk i, if_pos ⟨Nat.zero_le _, hi, hlen⟩, Nat.sub_zero]

theorem processBlock_fields (E : Config) (s : FFTAudioStream) :
    (processBlock E s).currentSampleCleanSpectrumVector
      = E.Forward (getStreamSamples E s).currentSampleWaveVector ∧
    (processBlock E s).currentSampleSpectrumVector
      = filterLoop E.SAMPLES_TO_STREAM E.pastEndComplex s.filterShortComplexVector
          (processBlock E s).currentSampleCleanSpectrumVector ∧
    (processBlock E s).filteredWaveDataVector
      = E.Inverse (processBlock E s).currentSampleSpectrumVector ∧
    (processBlock E s).currentSampleWaveVector = (processBlock E s).filteredWaveDataVector ∧
    (processBlock E s).filterShortComplexVector = s.filterShortComplexVector ∧
    (processBlock E s).lowFilterValue = s.lowFilterValue ∧
    (processBlock E s).highFilterValue = s.highFilterValue := by
  simp [processBlock, applyFilteredSignalToSound, applyFilterToSpectrum, getStreamSamples]

theorem onGetData_fields (E : Config) (s : FFTAudioStream) :
    (onGetData E s).1.currentSampleCleanSpectrumVector
      = (processBlock E s).currentSampleCleanSpectrumVector ∧
    (onGetData E s).1.currentSampleSpectrumVector
      = (processBlock E s).currentSampleSpectrumVector ∧
    (onGetData E s).1.filteredWaveDataVector = (processBlock E s).filteredWaveDataVector ∧
    (onGetData E s).1.currentSampleWaveVector = (processBlock E s).currentSampleWaveVector ∧
    (onGetData E s).1.filterShortComplexVector = (processBlock E s).filterShortComplexVector ∧
    (onGetData E s).1.lowFilterValue = (processBlock E s).lowFilterValue ∧
    (onGetData E s).1.highFilterValue = (processBlock E s).highFilterValue := by
  simp only [onGetData]
  by_cases h : sizeAdd (processBlock E s).currentSample E.SAMPLES_TO_STREAM
      ≤ (processBlock E s).samplesVector.length
  · rw [if_pos h]
    exact ⟨rfl, rfl, rfl, rfl, rfl, rfl, rfl⟩
  · rw [if_neg h]
    exact ⟨rfl, rfl, rfl, rfl, rfl, rfl, rfl⟩

/-- After a block call, every bin of the filtered spectrum inside the four
quarters is the clean bin times the value read from the mask at `filterIndex`. -/
theorem block_bins (E : Config) (s : FFTAudioStream)
    (hlen : E.SAMPLES_TO_STREAM ≤ (onGetData E s).1.currentSampleCleanSpectrumVector.length) :
    ∀ T i, T < 4 → i < E.SAMPLES_TO_STREAM / 4 →
      (onGetData E s).1.currentSampleSpectrumVector[E.SAMPLES_TO_STREAM / 4 * T + i]? =
        some (vecRead (onGetData E s).1.currentSampleCleanSpectrumVector E.pastEndComplex
            (E.SAMPLES_TO_STREAM / 4 * T + i)
          * vecRead s.filterShortComplexVector E.pastEndComplex
            (filterIndex E.SAMPLES_TO_STREAM T i)) := by
  intro T i hT hi
  obtain ⟨hc, hs, -⟩ := onGetData_fields E s
  obtain ⟨-, hs2, -⟩ := processBlock_fields E s
  rw [hc] at hlen ⊢
  rw [hs, hs2]
  have hk : E.SAMPLES_TO_STREAM / 4 * T + i
      < (processBlock E s).currentSampleCleanSpectrumVector.length := by
    have h4 : E.SAMPLES_TO_STREAM / 4 * 4 ≤ E.SAMPLES_TO_STREAM := Nat.div_mul_le_self _ _
    have h5 : E.SAMPLES_TO_STREAM / 4 * T + E.SAMPLES_TO_STREAM / 4
        ≤ E.SAMPLES_TO_STREAM / 4 * 4 := by
      interval_cases T <;> omega
    omega
  exact (filterLoop_spec _ _ _ _).2 T i hT hi hk

theorem complex.mul_def (a b : complex) : a * b = complex.mul a b := rfl

theorem dft4_inverse (v : List complex) (h : v.length = 4) :
    idft4 (dft4 v) = v ∧ dft4 (idft4 v) = v := by
  match v, h with
  | [a, b, c, d], _ =>
    cases a; cases b; cases c; cases d
    constructor
    · simp only [dft4, idft4, complex.add, complex.sub, complex.mulI, complex.scale]
      simp only [List.cons.injEq, complex.mk.injEq, and_true]
      refine ⟨⟨?_, ?_⟩, ⟨?_, ?_⟩, ⟨?_, ?_⟩, ⟨?_, ?_⟩⟩ <;> ring
    · simp only [dft4, idft4, complex.add, complex.sub, complex.mulI, complex.scale]
      simp only [List.cons.injEq, complex.mk.injEq, and_true]
      refine ⟨⟨?_, ?_⟩, ⟨?_, ?_⟩, ⟨?_, ?_⟩, ⟨?_, ?_⟩⟩ <;> ring

theorem dft4_length (v : List complex) : (dft4 v).length = v.length ∧ (idft4 v).length = v.length := by
  match v with
  | [] => exact ⟨rfl, rfl⟩
  | [_] => exact ⟨rfl, rfl⟩
  | [_, _] => exact ⟨rfl, rfl⟩
  | [_, _, _] => exact ⟨rfl, rfl⟩
  | [_, _, _, _] => exact ⟨rfl, rfl⟩
  | _ :: _ :: _ :: _ :: _ :: _ => exact ⟨rfl, rfl⟩

theorem load_wave_length (E : Config) (buffer : SoundBuffer) (s : FFTAudioStream) :
    (load E buffer s).currentSampleWaveVector.length = E.SAMPLES_TO_STREAM :=
  resize_length _ _ _

theorem load_cutoffs (E : Config) (buffer : SoundBuffer) (s : FFTAudioStream) :
    (load E buffer s).lowFilterValue = 0 ∧
    (load E buffer s).highFilterValue = ((E.SAMPLES_TO_STREAM / 4 : Nat) : ℚ) :=
  ⟨rfl, rfl⟩

theorem onGetData_wave_length (E : Config)
    (hF : ∀ v, (E.Forward v).length = v.length) (hI : ∀ v, (E.Inverse v).length = v.length)
    (s : FFTAudioStream) :
    (onGetData E s).1.currentSampleWaveVector.length = s.currentSampleWaveVector.length := by
  obtain ⟨-, -, -, hw, -⟩ := onGetData_fields E s
  obtain ⟨hc, hs, hf, hw2, -⟩ := processBlock_fields E s
  rw [hw, hw2, hf, hI, hs, (filterLoop_spec _ _ _ _).1, hc, hF, (getStreamSamples_spec E s).1]

theorem blockCalls_wave_length (E : Config)
    (hF : ∀ v, (E.Forward v).length = v.length) (hI : ∀ v, (E.Inverse v).length = v.length)
    (s : FFTAudioStream) (n : Nat) :
    (blockCalls E n s).currentSampleWaveVector.length = s.currentSampleWaveVector.length := by
  induction n with
  | zero => rfl
  | succ n ih =>
    show (onGetData E (blockCalls E n s)).1.currentSampleWaveVector.length = _
    rw [onGetData_wave_length E hF hI, ih]

/-! ## The claims -/

/-- C1, mask consistency: after `load` and after any sequence of
`setLowFilterValue` / `setHighFilterValue` calls, accepted or rejected, the
filter mask has length `SAMPLES_TO_STREAM / 4`, and for every `i` below that
length mask bin `i` is `1+0i` if `low < i < high` for the current cutoffs and
`0+0i` otherwise. -/
theorem mask_consistency (E : Config) (buffer : SoundBuffer) (s0 : FFTAudioStream)
    (calls : List FilterCall) :
    (calls.foldl (FilterCall.run E) (load E buffer s0)).filterShortComplexVector.length
        = E.SAMPLES_TO_STREAM / 4 ∧
    ∀ i, i < E.SAMPLES_TO_STREAM / 4 →
      (calls.foldl (FilterCall.run E) (load E buffer s0)).filterShortComplexVector[i]? =
        some (if (calls.foldl (FilterCall.run E) (load E buffer s0)).lowFilterValue < (i : ℚ) ∧
            (i : ℚ) < (calls.foldl (FilterCall.run E) (load E buffer s0)).highFilterValue
          then (⟨1, 0⟩ : complex) else ⟨0, 0⟩) :=
  foldl_run_consistent E calls _ (load_consistent E buffer s0)

/-- C2, rejection invariance: for every value `v` with `v < 0` or
`v > SAMPLES_TO_STREAM / 4`, `setLowFilterValue v` and `setHighFilterValue v`
return the state they were given: cutoffs, mask and everything else keep their
values, and the call returns normally. -/
theorem rejection_invariance (E : Config) (s : FFTAudioStream) (v : ℚ)
    (h : v < 0 ∨ v > ((E.SAMPLES_TO_STREAM / 4 : Nat) : ℚ)) :
    setLowFilterValue E v s = s ∧ setHighFilterValue E v s = s := by
  have hn : ¬ (v ≥ 0 ∧ v ≤ ((E.SAMPLES_TO_STREAM / 4 : Nat) : ℚ)) := by
    rintro ⟨h0, h1⟩
    rcases h with h | h
    · exact absurd h0 (not_le.mpr h)
    · exact absurd h1 (not_le.mpr h)
  exact ⟨if_neg hn, if_neg hn⟩

/-- Witness for C2: with block length 1024 the value 257 lies above
`SAMPLES_TO_STREAM / 4 = 256`, and both setters return the loaded state. -/
theorem rejection_invariance_witness :
    (257 : ℚ) > 256 ∧
    setLowFilterValue scenarioConfig 257 scenarioStart = scenarioStart ∧
    setHighFilterValue scenarioConfig 257 scenarioStart = scenarioStart :=
  ⟨by norm_num,
    rejection_invariance scenarioConfig scenarioStart 257
      (Or.inr (by norm_num [scenarioConfig]))⟩

/-- C8, accepted cutoff update: for every `v` with
`0 ≤ v ≤ SAMPLES_TO_STREAM / 4`, `setLowFilterValue v` sets `low` to `v` and
leaves `high`, the playback offset and the sample buffer unchanged, and
`setHighFilterValue v` sets `high` to `v` and leaves `low`, the playback offset
and the sample buffer unchanged.  No relation between `low` and `high` is
required: the update is accepted also when it makes `low ≥ high`, and every bin
of the rebuilt mask is then `0+0i`. -/
theorem accepted_cutoff_update (E : Config) (s : FFTAudioStream) (v : ℚ)
    (h0 : 0 ≤ v) (h1 : v ≤ ((E.SAMPLES_TO_STREAM / 4 : Nat) : ℚ)) :
    ((setLowFilterValue E v s).lowFilterValue = v ∧
      (setLowFilterValue E v s).highFilterValue = s.highFilterValue ∧
      (setLowFilterValue E v s).currentSample = s.currentSample ∧
      (setLowFilterValue E v s).samplesVector = s.samplesVector ∧
      MaskConsistent E (setLowFilterValue E v s) ∧
      (s.highFilterValue ≤ v →
        ∀ c ∈ (setLowFilterValue E v s).filterShortComplexVector, c = (⟨0, 0⟩ : complex))) ∧
    ((setHighFilterValue E v s).highFilterValue = v ∧
      (setHighFilterValue E v s).lowFilterValue = s.lowFilterValue ∧
      (setHighFilterValue E v s).currentSample = s.currentSample ∧
      (setHighFilterValue E v s).samplesVector = s.samplesVector ∧
      MaskConsistent E (setHighFilterValue E v s) ∧
      (v ≤ s.lowFilterValue →
        ∀ c ∈ (setHighFilterValue E v s).filterShortComplexVector, c = (⟨0, 0⟩ : complex))) := by
  have hlow : setLowFilterValue E v s = generateFilterVector E { s with lowFilterValue := v } :=
    if_pos ⟨h0, h1⟩
  have hhigh : setHighFilterValue E v s = generateFilterVector E { s with highFilterValue := v } :=
    if_pos ⟨h0, h1⟩
  rw [hlow, hhigh]
  refine ⟨⟨rfl, rfl, rfl, rfl, generateFilterVector_consistent E _, fun hle => ?_⟩,
    ⟨rfl, rfl, rfl, rfl, generateFilterVector_consistent E _, fun hle => ?_⟩⟩
  · exact mask_all_zero E _ (generateFilterVector_consistent E _) hle
  · exact mask_all_zero E _ (generateFilterVector_consistent E _) hle

/-- Witness for C8: in the loaded scenario state (`low = 0`, `high = 256`) the
value 256 is accepted by both setters; as a lower cutoff it makes `low ≥ high`. -/
theorem accepted_cutoff_update_witness :
    (setLowFilterValue scenarioConfig 256 scenarioStart).lowFilterValue = 256 ∧
    (setLowFilterValue scenarioConfig 256 scenarioStart).highFilterValue = 256 ∧
    (setHighFilterValue scenarioConfig 256 scenarioStart).highFilterValue = 256 ∧
    (setHighFilterValue scenarioConfig 256 scenarioStart).lowFilterValue = 0 := by
  have h := accepted_cutoff_update scenarioConfig scenarioStart 256 (by norm_num)
    (by norm_num [scenarioConfig])
  refine ⟨h.1.1, ?_, h.2.1, ?_⟩
  · rw [h.1.2.1]
    norm_num [scenarioStart, load, generateFilterVector, scenarioConfig]
  · rw [h.2.2.1]
    rfl

/-- C3, evaluated on every state with sample count `S` and offset `o ≤ S`
(`S + N` a value of `std::size_t`).  If `o + N ≤ S`, every access of the block
call to the sample buffer is inside it and the call does what the claim says:
the chunk starts at `o` and has length `N`, the offset becomes `o + N`, the call
returns `true`, and the sample count is kept.  If `o ≤ S < o + N`, the
end-of-stream case of the claim, the loops of `getStreamSamples` and
`applyFilteredSignalToSound` reach the index `o + (S - o) = S`, outside the
buffer, before the size test is made: the call has no defined result. -/
theorem streaming_step_checked (E : Config) (s : FFTAudioStream)
    (ho : s.currentSample ≤ s.samplesVector.length)
    (hb : s.samplesVector.length + E.SAMPLES_TO_STREAM < sizeModulus) :
    (s.currentSample + E.SAMPLES_TO_STREAM ≤ s.samplesVector.length →
      sampleAccessesInRange E s ∧
      onGetDataChecked E s = some (onGetData E s) ∧
      (onGetData E s).2.1.samples = s.currentSample ∧
      (onGetData E s).2.1.sampleCount = E.SAMPLES_TO_STREAM ∧
      (onGetData E s).1.currentSample = s.currentSample + E.SAMPLES_TO_STREAM ∧
      (onGetData E s).2.2 = true ∧
      (onGetData E s).1.samplesVector.length = s.samplesVector.length) ∧
    (¬ s.currentSample + E.SAMPLES_TO_STREAM ≤ s.samplesVector.length →
      s.samplesVector.length - s.currentSample < E.SAMPLES_TO_STREAM ∧
      streamIndex s.currentSample (s.samplesVector.length - s.currentSample)
        = s.samplesVector.length ∧
      ¬ sampleAccessesInRange E s ∧
      onGetDataChecked E s = none) := by
  have hS : s.samplesVector.length < sizeModulus := by omega
  refine ⟨fun h => ?_, fun h => ?_⟩
  · have hin := sampleAccesses_of_le E s h hS
    refine ⟨hin, if_pos hin, ?_⟩
    rw [onGetData_more E s h hS]
    exact ⟨rfl, rfl, rfl, rfl, processBlock_length E s⟩
  · obtain ⟨hi, hidx, hout⟩ := sampleAccesses_past_end E s ho h hS
    exact ⟨hi, hidx, hout, if_neg hout⟩

/-- Witness for C3: block length 1024.  With 2500 samples the first block call
is inside the buffer and gives offset 1024 with more data; the third block call
(offset 2048, 452 samples left) has no defined result.  With an empty sample
buffer the first block call has no defined result either. -/
theorem streaming_step_checked_witness :
    (onGetDataChecked scenarioConfig scenarioStart
        = some (onGetData scenarioConfig scenarioStart) ∧
      (onGetData scenarioConfig scenarioStart).1.currentSample = 1024 ∧
      (onGetData scenarioConfig scenarioStart).2.2 = true) ∧
    (blockCalls scenarioConfig 2 scenarioStart).currentSample = 2048 ∧
    onGetDataChecked scenarioConfig (blockCalls scenarioConfig 2 scenarioStart) = none ∧
    onGetDataChecked scenarioConfig
      (load scenarioConfig ⟨[], 1, 44100⟩ FFTAudioStream.fresh) = none := by
  have hN : scenarioConfig.SAMPLES_TO_STREAM = 1024 := rfl
  have hm : sizeModulus = 18446744073709551616 := by norm_num [sizeModulus]
  have hlen := scenarioStart_length
  have h0 : scenarioStart.currentSample = 0 := rfl
  obtain ⟨hc, hl⟩ := blockCalls_offset scenarioConfig scenarioStart rfl (by omega) 2 (by omega)
  have hempty : (load scenarioConfig ⟨[], 1, 44100⟩ FFTAudioStream.fresh).samplesVector.length
      = 0 := rfl
  have hempty0 : (load scenarioConfig ⟨[], 1, 44100⟩ FFTAudioStream.fresh).currentSample
      = 0 := rfl
  have c1 := (streaming_step_checked scenarioConfig scenarioStart (by omega) (by omega)).1
    (by omega)
  have c3 := (streaming_step_checked scenarioConfig (blockCalls scenarioConfig 2 scenarioStart)
    (by omega) (by omega)).2 (by omega)
  have c0 := (streaming_step_checked scenarioConfig
    (load scenarioConfig ⟨[], 1, 44100⟩ FFTAudioStream.fresh) (by omega) (by omega)).2 (by omega)
  refine ⟨⟨c1.2.1, ?_, c1.2.2.2.2.2.1⟩, by omega, c3.2.2.2, c0.2.2.2⟩
  rw [c1.2.2.2.2.1]
  omega

/-- Counterexample to C4 as stated: with block length 1024 and 2048 samples,
`k = ceil (2048 / 1024) = 2`, yet the second block call after `load` still
returns `true` (more data), with offset 2048; end of stream is reported by the
third call only. -/
theorem offset_advance_counterexample :
    (2048 + 1024 - 1) / 1024 = 2 ∧
    (onGetData scenarioConfig (blockCalls scenarioConfig 1
      (load scenarioConfig ⟨List.replicate 2048 0, 1, 44100⟩ FFTAudioStream.fresh))).2.2 = true ∧
    (onGetData scenarioConfig (blockCalls scenarioConfig 2
      (load scenarioConfig ⟨List.replicate 2048 0, 1, 44100⟩ FFTAudioStream.fresh))).2.2
      = false := by
  have hlen : (load scenarioConfig ⟨List.replicate 2048 0, 1, 44100⟩
      FFTAudioStream.fresh).samplesVector.length = 2048 := by
    have h : (load scenarioConfig ⟨List.replicate 2048 0, 1, 44100⟩
      FFTAudioStream.fresh).samplesVector = List.replicate 2048 0 := rfl
    rw [h, List.length_replicate]
  have hN : scenarioConfig.SAMPLES_TO_STREAM = 1024 := rfl
  have hm : sizeModulus = 18446744073709551616 := by norm_num [sizeModulus]
  have h1 := blockCalls_offset scenarioConfig _ (load_offset scenarioConfig
    ⟨List.replicate 2048 0, 1, 44100⟩ FFTAudioStream.fresh).1 (by omega) 1 (by omega)
  have h2 := blockCalls_offset scenarioConfig _ (load_offset scenarioConfig
    ⟨List.replicate 2048 0, 1, 44100⟩ FFTAudioStream.fresh).1 (by omega) 2 (by omega)
  refine ⟨by norm_num, ?_, ?_⟩
  · rw [onGetData_more scenarioConfig _ (by omega) (by omega)]
  · rw [onGetData_last scenarioConfig _ (by omega) (by omega) (by omega)]

/-- C4 as amended, offset advance: for every sample count `S ≥ 1` and block
length `N ≥ 1` (with `S + N` a value of `std::size_t`), starting from offset 0
right after `load` and with no seek in between, each of the first
`floor (S / N)` block calls has all its sample accesses inside the buffer,
returns more data and advances the offset by exactly `N`; after them the
offset is `floor (S / N) * N` and fewer than `N` samples are left.  With
`k = ceil (S / N) ≥ 1`: when `N` does not divide `S`, `floor (S / N) = k - 1`;
when `N` divides `S`, `floor (S / N) = k`, so the `k`-th block call too returns
more data, and it leaves the offset equal to `S`. -/
theorem offset_advance (E : Config) (buffer : SoundBuffer) (s0 : FFTAudioStream)
    (hN : 0 < E.SAMPLES_TO_STREAM) (hS : 1 ≤ buffer.samples.length)
    (hb : buffer.samples.length + E.SAMPLES_TO_STREAM < sizeModulus) :
    (∀ j, j < buffer.samples.length / E.SAMPLES_TO_STREAM →
      (blockCalls E j (load E buffer s0)).currentSample = j * E.SAMPLES_TO_STREAM ∧
      sampleAccessesInRange E (blockCalls E j (load E buffer s0)) ∧
      (onGetData E (blockCalls E j (load E buffer s0))).2.2 = true ∧
      (onGetData E (blockCalls E j (load E buffer s0))).1.currentSample
        = (blockCalls E j (load E buffer s0)).currentSample + E.SAMPLES_TO_STREAM) ∧
    (blockCalls E (buffer.samples.length / E.SAMPLES_TO_STREAM) (load E buffer s0)).currentSample
      = buffer.samples.length / E.SAMPLES_TO_STREAM * E.SAMPLES_TO_STREAM ∧
    buffer.samples.length
      < buffer.samples.length / E.SAMPLES_TO_STREAM * E.SAMPLES_TO_STREAM
        + E.SAMPLES_TO_STREAM ∧
    1 ≤ (buffer.samples.length + E.SAMPLES_TO_STREAM - 1) / E.SAMPLES_TO_STREAM ∧
    (¬ E.SAMPLES_TO_STREAM ∣ buffer.samples.length →
      buffer.samples.length / E.SAMPLES_TO_STREAM
        = (buffer.samples.length + E.SAMPLES_TO_STREAM - 1) / E.SAMPLES_TO_STREAM - 1) ∧
    (E.SAMPLES_TO_STREAM ∣ buffer.samples.length →
      buffer.samples.length / E.SAMPLES_TO_STREAM
        = (buffer.samples.length + E.SAMPLES_TO_STREAM - 1) / E.SAMPLES_TO_STREAM ∧
      (onGetData E (blockCalls E
        ((buffer.samples.length + E.SAMPLES_TO_STREAM - 1) / E.SAMPLES_TO_STREAM - 1)
        (load E buffer s0))).2.2 = true ∧
      (onGetData E (blockCalls E
        ((buffer.samples.length + E.SAMPLES_TO_STREAM - 1) / E.SAMPLES_TO_STREAM - 1)
        (load E buffer s0))).1.currentSample = buffer.samples.length) := by
  obtain ⟨hc0, hsv⟩ := load_offset E buffer s0
  have hlen : (load E buffer s0).samplesVector.length = buffer.samples.length := by rw [hsv]
  have hSm : (load E buffer s0).samplesVector.length < sizeModulus := by omega
  have hdm := Nat.div_add_mod buffer.samples.length E.SAMPLES_TO_STREAM
  have hmod := Nat.mod_lt buffer.samples.length hN
  have hmul : E.SAMPLES_TO_STREAM * (buffer.samples.length / E.SAMPLES_TO_STREAM)
      = buffer.samples.length / E.SAMPLES_TO_STREAM * E.SAMPLES_TO_STREAM := Nat.mul_comm _ _
  have hcalls : ∀ j, j < buffer.samples.length / E.SAMPLES_TO_STREAM →
      (blockCalls E j (load E buffer s0)).currentSample = j * E.SAMPLES_TO_STREAM ∧
      sampleAccessesInRange E (blockCalls E j (load E buffer s0)) ∧
      (onGetData E (blockCalls E j (load E buffer s0))).2.2 = true ∧
      (onGetData E (blockCalls E j (load E buffer s0))).1.currentSample
        = (blockCalls E j (load E buffer s0)).currentSample + E.SAMPLES_TO_STREAM := by
    intro j hj
    have hle : (j + 1) * E.SAMPLES_TO_STREAM ≤ buffer.samples.length :=
      le_trans (Nat.mul_le_mul_right _ hj) (by omega)
    rw [Nat.succ_mul] at hle
    obtain ⟨hc, hl⟩ := blockCalls_offset E (load E buffer s0) hc0 hSm j (by omega)
    refine ⟨hc, sampleAccesses_of_le E _ (by omega) (by omega), ?_⟩
    rw [onGetData_more E _ (by omega) (by omega)]
    exact ⟨rfl, rfl⟩
  have hceil_nd : ¬ E.SAMPLES_TO_STREAM ∣ buffer.samples.length →
      (buffer.samples.length + E.SAMPLES_TO_STREAM - 1) / E.SAMPLES_TO_STREAM
        = buffer.samples.length / E.SAMPLES_TO_STREAM + 1 := by
    intro hnd
    have hr : buffer.samples.length % E.SAMPLES_TO_STREAM ≠ 0 :=
      fun h => hnd (Nat.dvd_of_mod_eq_zero h)
    apply Nat.div_eq_of_lt_le
    · rw [Nat.add_mul, Nat.one_mul]; omega
    · rw [Nat.add_mul, Nat.add_mul, Nat.one_mul]; omega
  have hceil_d : E.SAMPLES_TO_STREAM ∣ buffer.samples.length →
      (buffer.samples.length + E.SAMPLES_TO_STREAM - 1) / E.SAMPLES_TO_STREAM
        = buffer.samples.length / E.SAMPLES_TO_STREAM := by
    intro hd
    have hr : buffer.samples.length % E.SAMPLES_TO_STREAM = 0 := Nat.mod_eq_zero_of_dvd hd
    apply Nat.div_eq_of_lt_le
    · omega
    · rw [Nat.add_mul, Nat.one_mul]; omega
  refine ⟨hcalls, ?_, by omega, ?_, fun hnd => ?_, fun hd => ?_⟩
  · exact (blockCalls_offset E (load E buffer s0) hc0 hSm
      (buffer.samples.length / E.SAMPLES_TO_STREAM) (by omega)).1
  · exact (Nat.le_div_iff_mul_le hN).mpr (by omega)
  · rw [hceil_nd hnd, Nat.add_sub_cancel]
  · have hr : buffer.samples.length % E.SAMPLES_TO_STREAM = 0 := Nat.mod_eq_zero_of_dvd hd
    have hq : 1 ≤ buffer.samples.length / E.SAMPLES_TO_STREAM := by
      apply (Nat.le_div_iff_mul_le hN).mpr
      rw [Nat.one_mul]
      exact Nat.le_of_dvd (by omega) hd
    rw [hceil_d hd]
    obtain ⟨h1, -, h3, h4⟩ := hcalls (buffer.samples.length / E.SAMPLES_TO_STREAM - 1) (by omega)
    refine ⟨rfl, h3, ?_⟩
    rw [h4, h1, Nat.sub_mul, Nat.one_mul]
    have hge : E.SAMPLES_TO_STREAM
        ≤ buffer.samples.length / E.SAMPLES_TO_STREAM * E.SAMPLES_TO_STREAM :=
      Nat.le_mul_of_pos_left _ (by omega)
    omega

/-- Witness for C4 as amended: block length 1024 and 2500 samples. -/
theorem offset_advance_witness :
    (onGetData scenarioConfig (blockCalls scenarioConfig 0
      (load scenarioConfig scenarioBuffer FFTAudioStream.fresh))).2.2 = true ∧
    (blockCalls scenarioConfig
      (scenarioBuffer.samples.length / scenarioConfig.SAMPLES_TO_STREAM)
      (load scenarioConfig scenarioBuffer FFTAudioStream.fresh)).currentSample
      = scenarioBuffer.samples.length / scenarioConfig.SAMPLES_TO_STREAM
        * scenarioConfig.SAMPLES_TO_STREAM := by
  have hlen : scenarioBuffer.samples.length = 2500 := List.length_replicate _ _
  have h := offset_advance scenarioConfig scenarioBuffer FFTAudioStream.fresh (by decide)
    (by rw [hlen]; decide) scenarioBuffer_bound
  refine ⟨(h.1 0 ?_).2.2.1, h.2.1⟩
  rw [hlen]
  decide

/-- Counterexample to C5 as stated: in the scenario (2500 samples, 44100 Hz,
mono) a seek to one second sets the offset to 44100, which exceeds the sample
count; no clamp is applied. -/
theorem seek_clamp_counterexample :
    ∃ s, onSeek ⟨1000000⟩ scenarioStart = some s ∧
      s.samplesVector.length = 2500 ∧ s.currentSample = 44100 ∧
      ¬ s.currentSample ≤ s.samplesVector.length := by
  have htarget : truncate (seekTarget ⟨1000000⟩ scenarioStart.sampleRate
      scenarioStart.channelCount) = 44100 := by
    rw [scenarioStart_rate.1, scenarioStart_rate.2, seekTarget_one_second,
      truncate_of_nonneg _ (by norm_num)]
    exact Int.floor_eq_iff.mpr ⟨by norm_num, by norm_num⟩
  refine ⟨_, onSeek_of_fit ⟨1000000⟩ scenarioStart ?_ ?_, scenarioStart_length, ?_, ?_⟩
  · rw [htarget]
    decide
  · rw [htarget]
    norm_num [sizeModulus]
  · show (truncate _).toNat = 44100
    rw [htarget]
    rfl
  · show ¬ (truncate _).toNat ≤ scenarioStart.samplesVector.length
    rw [htarget, scenarioStart_length]
    decide

/-- C5 as amended, seek without clamp: for every seek time `t ≥ 0` (a 64-bit
count of microseconds, with 32-bit sample rate and channel count) whose target
index, the `float` product `t * sampleRate * channelCount` formed in binary32
and rounded toward zero, is a value of `std::size_t`, `onSeek t` sets the
offset to exactly that target index and changes nothing else.  Hence
`0 ≤ offset`, and `offset ≤ S` holds exactly when the target index is at most
the sample count `S`: a target greater than `S` is kept as it is.  The product
stays below `2 ^ 108`, inside the range of binary32. -/
theorem seek_offset (t : Time) (s : FFTAudioStream) (ht : 0 ≤ t.microseconds)
    (hus : t.microseconds < 2 ^ 63) (hrate : s.sampleRate < 2 ^ 32)
    (hch : s.channelCount < 2 ^ 32)
    (hfit : truncate (seekTarget t s.sampleRate s.channelCount) < (sizeModulus : Int)) :
    seekTarget t s.sampleRate s.channelCount ≤ 2 ^ 108 ∧
    ∃ r, onSeek t s = some r ∧
      r = { s with currentSample :=
        (truncate (seekTarget t s.sampleRate s.channelCount)).toNat } ∧
      ((r.currentSample : Int) = truncate (seekTarget t s.sampleRate s.channelCount)) ∧
      (r.currentSample ≤ r.samplesVector.length ↔
        truncate (seekTarget t s.sampleRate s.channelCount)
          ≤ (s.samplesVector.length : Int)) := by
  have h0 : 0 ≤ truncate (seekTarget t s.sampleRate s.channelCount) :=
    truncate_nonneg _ (seekTarget_nonneg t _ _ ht)
  refine ⟨seekTarget_le t _ _ ht hus hrate hch,
    _, onSeek_of_fit t s h0 hfit, rfl, Int.toNat_of_nonneg h0, ?_⟩
  show (truncate _).toNat ≤ s.samplesVector.length ↔ _
  omega

/-- Witness for C5 as amended: at 44100 Hz, a seek to 0.53 s on a mono stream
sets the offset to 23372 (the binary32 product is 23372.998...), and a seek to
381.25 s on a stereo stream sets it to 33626248. -/
theorem seek_offset_witness :
    (∃ r, onSeek ⟨530000⟩ scenarioStart = some r ∧ r.currentSample = 23372) ∧
    (∃ r, onSeek ⟨381250000⟩
        (load scenarioConfig ⟨List.replicate 2500 0, 2, 44100⟩ FFTAudioStream.fresh) = some r ∧
      r.currentSample = 33626248) := by
  have hm : (sizeModulus : Int) = 18446744073709551616 := by norm_num [sizeModulus]
  have hmono : truncate (seekTarget ⟨530000⟩ scenarioStart.sampleRate
      scenarioStart.channelCount) = 23372 := by
    rw [scenarioStart_rate.1, scenarioStart_rate.2, seekTarget_mono_example,
      truncate_of_nonneg _ (by norm_num)]
    exact Int.floor_eq_iff.mpr ⟨by norm_num, by norm_num⟩
  have hrate : (load scenarioConfig ⟨List.replicate 2500 0, 2, 44100⟩
      FFTAudioStream.fresh).sampleRate = 44100 := rfl
  have hch : (load scenarioConfig ⟨List.replicate 2500 0, 2, 44100⟩
      FFTAudioStream.fresh).channelCount = 2 := rfl
  have hstereo : truncate (seekTarget ⟨381250000⟩
      (load scenarioConfig ⟨List.replicate 2500 0, 2, 44100⟩ FFTAudioStream.fresh).sampleRate
      (load scenarioConfig ⟨List.replicate 2500 0, 2, 44100⟩
        FFTAudioStream.fresh).channelCount) = 33626248 := by
    rw [hrate, hch, seekTarget_stereo_example, truncate_of_nonneg _ (by norm_num)]
    exact Int.floor_eq_iff.mpr ⟨by norm_num, by norm_num⟩
  obtain ⟨-, r1, h11, -, h13, -⟩ := seek_offset ⟨530000⟩ scenarioStart (by decide)
    (by norm_num) (by rw [scenarioStart_rate.1]; norm_num)
    (by rw [scenarioStart_rate.2]; norm_num) (by rw [hmono, hm]; decide)
  obtain ⟨-, r2, h21, -, h23, -⟩ := seek_offset ⟨381250000⟩
    (load scenarioConfig ⟨List.replicate 2500 0, 2, 44100⟩ FFTAudioStream.fresh) (by decide)
    (by norm_num) (by rw [hrate]; norm_num) (by rw [hch]; norm_num)
    (by rw [hstereo, hm]; decide)
  rw [hmono] at h13
  rw [hstereo] at h23
  exact ⟨⟨r1, h11, by exact_mod_cast h13⟩, ⟨r2, h21, by exact_mod_cast h23⟩⟩

/-- Counterexample to C6 as stated: with block length 4, the exact transforms
of that length (mutually inverse on vectors of length 4) and the load-time
cutoffs `low = 0`, `high = N / 4`, the block `1, 1, 1, 1` is extracted and the
filtered-wave snapshot of the block call is `0, 0, 0, 0`, whatever the memory
behind the mask holds: mask bin 0 is `0+0i` and removes spectrum bin 0. -/
theorem round_trip_counterexample :
    (∀ v : List complex, v.length = 4 → idft4 (dft4 v) = v ∧ dft4 (idft4 v) = v) ∧
    (∀ pc : Nat → complex,
      (load (dftConfig pc) ⟨[1, 1, 1, 1], 1, 44100⟩ FFTAudioStream.fresh).lowFilterValue = 0 ∧
      (load (dftConfig pc) ⟨[1, 1, 1, 1], 1, 44100⟩ FFTAudioStream.fresh).highFilterValue
        = (((dftConfig pc).SAMPLES_TO_STREAM / 4 : Nat) : ℚ) ∧
      (getStreamSamples (dftConfig pc)
        (load (dftConfig pc) ⟨[1, 1, 1, 1], 1, 44100⟩ FFTAudioStream.fresh)).currentSampleWaveVector
        = [⟨1, 0⟩, ⟨1, 0⟩, ⟨1, 0⟩, ⟨1, 0⟩] ∧
      (onGetData (dftConfig pc)
        (load (dftConfig pc) ⟨[1, 1, 1, 1], 1, 44100⟩ FFTAudioStream.fresh)).1.filteredWaveDataVector
        = [⟨0, 0⟩, ⟨0, 0⟩, ⟨0, 0⟩, ⟨0, 0⟩] ∧
      (onGetData (dftConfig pc)
        (load (dftConfig pc) ⟨[1, 1, 1, 1], 1, 44100⟩ FFTAudioStream.fresh)).1.filteredWaveDataVector
        ≠ (getStreamSamples (dftConfig pc)
          (load (dftConfig pc) ⟨[1, 1, 1, 1], 1, 44100⟩
            FFTAudioStream.fresh)).currentSampleWaveVector) := by
  refine ⟨dft4_inverse, fun pc => ?_⟩
  have hr4 : List.range 4 = [0, 1, 2, 3] := by decide
  have hr1 : List.range 1 = [0] := by decide
  have hblock : (getStreamSamples (dftConfig pc)
      (load (dftConfig pc) ⟨[1, 1, 1, 1], 1, 44100⟩ FFTAudioStream.fresh)).currentSampleWaveVector
      = [⟨1, 0⟩, ⟨1, 0⟩, ⟨1, 0⟩, ⟨1, 0⟩] := by
    simp [load, generateFilterVector, getStreamSamples, dftConfig, resize, vecRead,
      streamIndex, sizeAdd, sizeModulus, hr4, FFTAudioStream.fresh, complex.ofReal]
  have hwave : (onGetData (dftConfig pc)
      (load (dftConfig pc) ⟨[1, 1, 1, 1], 1, 44100⟩ FFTAudioStream.fresh)).1.filteredWaveDataVector
      = [⟨0, 0⟩, ⟨0, 0⟩, ⟨0, 0⟩, ⟨0, 0⟩] := by
    rw [(onGetData_fields _ _).2.2.1]
    simp [processBlock, load, generateFilterVector, getStreamSamples, applyFilterToSpectrum,
      filterLoop, applyFilteredSignalToSound, dftConfig, resize, vecRead, filterGain,
      filterIndex, streamIndex, sizeAdd, sizeModulus, hr4, hr1, FFTAudioStream.fresh,
      complex.ofReal, dft4, idft4, complex.add, complex.sub, complex.mulI, complex.scale,
      complex.mul_def, complex.mul]
  refine ⟨rfl, rfl, hblock, hwave, ?_⟩
  rw [hblock, hwave]
  decide

/-- C6 as amended, the pipeline under the load-time cutoffs: with `low = 0`
and `high = N / 4`, a consistent mask, a working vector of length `N`, and
`Forward` / `Inverse` exact, length-preserving, mutually inverse maps, one
block call records `Forward` of the extracted block as the clean spectrum,
leaves every bin `T * N/4 + i` with `0 < i < N/4` unchanged in each of the
four quarters, sets bins `0` and `N/2` (quarter-relative index 0 of quarters 0
and 2) to `0+0i`, and records `Inverse` of the filtered spectrum as the
filtered wave.  The mask is not all-pass: its bin 0 is `0+0i`.  The
filtered-wave snapshot equals the extracted block whenever the filter step
left the spectrum unchanged. -/
theorem filtered_round_trip (E : Config) (s : FFTAudioStream)
    (hinv : ∀ v, v.length = E.SAMPLES_TO_STREAM → E.Inverse (E.Forward v) = v)
    (hF : ∀ v, (E.Forward v).length = v.length)
    (hwave : s.currentSampleWaveVector.length = E.SAMPLES_TO_STREAM)
    (hmask : MaskConsistent E s)
    (hlow : s.lowFilterValue = 0)
    (hhigh : s.highFilterValue = ((E.SAMPLES_TO_STREAM / 4 : Nat) : ℚ)) :
    (onGetData E s).1.currentSampleCleanSpectrumVector
      = E.Forward (getStreamSamples E s).currentSampleWaveVector ∧
    (∀ T i, T < 4 → 0 < i → i < E.SAMPLES_TO_STREAM / 4 →
      (onGetData E s).1.currentSampleSpectrumVector[E.SAMPLES_TO_STREAM / 4 * T + i]?
        = (onGetData E s).1.currentSampleCleanSpectrumVector[E.SAMPLES_TO_STREAM / 4 * T + i]?) ∧
    (0 < E.SAMPLES_TO_STREAM / 4 →
      s.filterShortComplexVector[0]? = some ⟨0, 0⟩ ∧
      (onGetData E s).1.currentSampleSpectrumVector[0]? = some ⟨0, 0⟩ ∧
      (onGetData E s).1.currentSampleSpectrumVector[E.SAMPLES_TO_STREAM / 4 * 2]?
        = some ⟨0, 0⟩) ∧
    (onGetData E s).1.filteredWaveDataVector
      = E.Inverse (onGetData E s).1.currentSampleSpectrumVector ∧
    ((onGetData E s).1.currentSampleSpectrumVector
        = (onGetData E s).1.currentSampleCleanSpectrumVector →
      (onGetData E s).1.filteredWaveDataVector
        = (getStreamSamples E s).currentSampleWaveVector) := by
  obtain ⟨hc, hs, hf, -⟩ := onGetData_fields E s
  obtain ⟨hc2, -, hf2, -⟩ := processBlock_fields E s
  have hblock : (getStreamSamples E s).currentSampleWaveVector.length = E.SAMPLES_TO_STREAM := by
    rw [(getStreamSamples_spec E s).1, hwave]
  have hclean : (onGetData E s).1.currentSampleCleanSpectrumVector
      = E.Forward (getStreamSamples E s).currentSampleWaveVector := by rw [hc, hc2]
  have hlen : (onGetData E s).1.currentSampleCleanSpectrumVector.length
      = E.SAMPLES_TO_STREAM := by rw [hclean, hF, hblock]
  have hbins := block_bins E s (le_of_eq hlen.symm)
  have h4 : E.SAMPLES_TO_STREAM / 4 * 4 ≤ E.SAMPLES_TO_STREAM := Nat.div_mul_le_self _ _
  have hzero : 0 < E.SAMPLES_TO_STREAM / 4 →
      vecRead s.filterShortComplexVector E.pastEndComplex 0 = ⟨0, 0⟩ := by
    intro hq
    unfold vecRead
    rw [hmask.2 0 hq, hlow]
    simp
  have hone : ∀ j, 0 < j → j < E.SAMPLES_TO_STREAM / 4 →
      vecRead s.filterShortComplexVector E.pastEndComplex j = ⟨1, 0⟩ := by
    intro j hj0 hj
    unfold vecRead
    rw [hmask.2 j hj, hlow, hhigh]
    have h1 : (0 : ℚ) < (j : ℚ) := by exact_mod_cast hj0
    have h2 : (j : ℚ) < ((E.SAMPLES_TO_STREAM / 4 : Nat) : ℚ) := by exact_mod_cast hj
    rw [if_pos ⟨h1, h2⟩]
    rfl
  refine ⟨hclean, fun T i hT hi0 hi => ?_, fun hq => ⟨?_, ?_, ?_⟩, ?_, fun heq => ?_⟩
  · have hidx : 0 < filterIndex E.SAMPLES_TO_STREAM T i ∧
        filterIndex E.SAMPLES_TO_STREAM T i < E.SAMPLES_TO_STREAM / 4 := by
      unfold filterIndex
      split <;> omega
    have hk : E.SAMPLES_TO_STREAM / 4 * T + i
        < (onGetData E s).1.currentSampleCleanSpectrumVector.length := by
      rw [hlen]
      interval_cases T <;> omega
    rw [hbins T i hT hi, hone _ hidx.1 hidx.2, complex.mul_one_eq,
      vecRead_of_lt _ E.pastEndComplex _ hk]
  · have h := hmask.2 0 hq
    rw [hlow] at h
    rw [h]
    simp
  · have h := hbins 0 0 (by decide) hq
    rw [show filterIndex E.SAMPLES_TO_STREAM 0 0 = 0 from rfl, hzero hq,
      complex.mul_zero_eq] at h
    simpa using h
  · have h := hbins 2 0 (by decide) hq
    rw [show filterIndex E.SAMPLES_TO_STREAM 2 0 = 0 from rfl, hzero hq,
      complex.mul_zero_eq] at h
    simpa using h
  · rw [hf, hf2, hs]
  · rw [hf, hf2, ← hs, heq, hclean]
    exact hinv _ hblock

/-- Witness for C6 as amended: block length 4 with the exact transforms, in
the state right after `load`. -/
theorem filtered_round_trip_witness :
    (onGetData (dftConfig (fun _ => 0))
      (load (dftConfig (fun _ => 0)) ⟨[1, 1, 1, 1], 1, 44100⟩
        FFTAudioStream.fresh)).1.currentSampleCleanSpectrumVector
      = dft4 (getStreamSamples (dftConfig (fun _ => 0))
        (load (dftConfig (fun _ => 0)) ⟨[1, 1, 1, 1], 1, 44100⟩
          FFTAudioStream.fresh)).currentSampleWaveVector ∧
    (onGetData (dftConfig (fun _ => 0))
      (load (dftConfig (fun _ => 0)) ⟨[1, 1, 1, 1], 1, 44100⟩
        FFTAudioStream.fresh)).1.currentSampleSpectrumVector[0]? = some ⟨0, 0⟩ := by
  have h := filtered_round_trip (dftConfig (fun _ => 0))
    (load (dftConfig (fun _ => 0)) ⟨[1, 1, 1, 1], 1, 44100⟩ FFTAudioStream.fresh)
    (fun v hv => (dft4_inverse v hv).1) (fun v => (dft4_length v).1)
    (load_wave_length _ _ _) (load_consistent _ _ _) (load_cutoffs _ _ _).1
    (load_cutoffs _ _ _).2
  exact ⟨h.1, (h.2.2.1 (by decide)).2.1⟩

/-- C7, evaluated at the final partial block: with block length 1024 and 2500
samples, the third block call starts at offset 2048, so `getStreamSamples`
reads the indices 2048 up to 3071.  Index 2500, read for `i = 452`, is the
sample count itself: the value stored in the working vector there is the
content of the memory behind the sample buffer, not a sample. -/
theorem extraction_past_end :
    (blockCalls scenarioConfig 2 scenarioStart).currentSample = 2048 ∧
    (blockCalls scenarioConfig 2 scenarioStart).samplesVector.length = 2500 ∧
    streamIndex (blockCalls scenarioConfig 2 scenarioStart).currentSample 452 = 2500 ∧
    streamIndex (blockCalls scenarioConfig 2 scenarioStart).currentSample 1023 = 3071 ∧
    ¬ streamIndex (blockCalls scenarioConfig 2 scenarioStart).currentSample 452
      < (blockCalls scenarioConfig 2 scenarioStart).samplesVector.length ∧
    (getStreamSamples scenarioConfig
      (blockCalls scenarioConfig 2 scenarioStart)).currentSampleWaveVector[452]?
      = some (complex.ofReal ((scenarioConfig.pastEndSample 2500 : Int) : ℚ)) := by
  have hN : scenarioConfig.SAMPLES_TO_STREAM = 1024 := rfl
  have hm : sizeModulus = 18446744073709551616 := by norm_num [sizeModulus]
  have hlen := scenarioStart_length
  obtain ⟨hc, hl⟩ := blockCalls_offset scenarioConfig scenarioStart rfl (by omega) 2 (by omega)
  rw [hN] at hc
  rw [hlen] at hl
  have hwl : (blockCalls scenarioConfig 2 scenarioStart).currentSampleWaveVector.length = 1024 := by
    rw [blockCalls_wave_length scenarioConfig (fun _ => rfl) (fun _ => rfl)]
    exact load_wave_length _ _ _
  have hi1 : streamIndex (blockCalls scenarioConfig 2 scenarioStart).currentSample 452 = 2500 := by
    rw [hc]
    norm_num [streamIndex, sizeAdd, sizeModulus]
  have hi2 : streamIndex (blockCalls scenarioConfig 2 scenarioStart).currentSample 1023 = 3071 := by
    rw [hc]
    norm_num [streamIndex, sizeAdd, sizeModulus]
  refine ⟨hc, hl, hi1, hi2, by rw [hi1, hl]; decide, ?_⟩
  rw [(getStreamSamples_spec scenarioConfig _).2 452 (by rw [hN]; decide) (by rw [hwl]; decide),
    hi1, vecRead_of_ge _ _ _ (by rw [hl])]

/-- C9, evaluated with block length 4 and the exact transforms: after `load`
(`low = 0`, `high = N / 4 = 1`, mask `0+0i`) and one block call on the block
`1, 0, 0, 0`, whose clean spectrum is `1, 1, 1, 1`, the filtered spectrum is
`0, pc 1, 0, pc 1`, where `pc 1` is the content of the memory behind the
one-entry mask.  Bins 0 and 2 (quarters 0 and 2) are `0+0i`; bins 1 and 3
(quarter-relative index 0 of quarters 1 and 3) are `0+0i` only if that memory
holds zero, and are `1+0i` when it holds `1+0i`. -/
theorem stop_band_past_end :
    filterIndex 4 1 0 = 1 ∧ filterIndex 4 3 0 = 1 ∧
    (∀ pc : Nat → complex,
      (load (dftConfig pc) ⟨[1, 0, 0, 0], 1, 44100⟩ FFTAudioStream.fresh).filterShortComplexVector
        = [⟨0, 0⟩] ∧
      (onGetData (dftConfig pc)
        (load (dftConfig pc) ⟨[1, 0, 0, 0], 1, 44100⟩
          FFTAudioStream.fresh)).1.currentSampleCleanSpectrumVector
        = [⟨1, 0⟩, ⟨1, 0⟩, ⟨1, 0⟩, ⟨1, 0⟩] ∧
      (onGetData (dftConfig pc)
        (load (dftConfig pc) ⟨[1, 0, 0, 0], 1, 44100⟩
          FFTAudioStream.fresh)).1.currentSampleSpectrumVector
        = [⟨0, 0⟩, pc 1, ⟨0, 0⟩, pc 1]) ∧
    (onGetData (dftConfig (fun _ => ⟨1, 0⟩))
      (load (dftConfig (fun _ => ⟨1, 0⟩)) ⟨[1, 0, 0, 0], 1, 44100⟩
        FFTAudioStream.fresh)).1.currentSampleSpectrumVector[1]? ≠ some ⟨0, 0⟩ := by
  have hr4 : List.range 4 = [0, 1, 2, 3] := by decide
  have hr1 : List.range 1 = [0] := by decide
  have hall : ∀ pc : Nat → complex,
      (load (dftConfig pc) ⟨[1, 0, 0, 0], 1, 44100⟩ FFTAudioStream.fresh).filterShortComplexVector
        = [⟨0, 0⟩] ∧
      (onGetData (dftConfig pc)
        (load (dftConfig pc) ⟨[1, 0, 0, 0], 1, 44100⟩
          FFTAudioStream.fresh)).1.currentSampleCleanSpectrumVector
        = [⟨1, 0⟩, ⟨1, 0⟩, ⟨1, 0⟩, ⟨1, 0⟩] ∧
      (onGetData (dftConfig pc)
        (load (dftConfig pc) ⟨[1, 0, 0, 0], 1, 44100⟩
          FFTAudioStream.fresh)).1.currentSampleSpectrumVector
        = [⟨0, 0⟩, pc 1, ⟨0, 0⟩, pc 1] := by
    intro pc
    refine ⟨?_, ?_, ?_⟩
    · simp [load, generateFilterVector, dftConfig, resize, filterGain, hr1,
        FFTAudioStream.fresh, complex.ofReal]
    · rw [(onGetData_fields _ _).1]
      simp [processBlock, load, generateFilterVector, getStreamSamples, applyFilterToSpectrum,
        applyFilteredSignalToSound, dftConfig, resize, vecRead, filterGain,
        streamIndex, sizeAdd, sizeModulus, hr4, hr1, FFTAudioStream.fresh,
        complex.ofReal, dft4, complex.add, complex.sub, complex.mulI]
    · rw [(onGetData_fields _ _).2.1]
      simp [processBlock, load, generateFilterVector, getStreamSamples, applyFilterToSpectrum,
        filterLoop, applyFilteredSignalToSound, dftConfig, resize, vecRead, filterGain,
        filterIndex, streamIndex, sizeAdd, sizeModulus, hr4, hr1, FFTAudioStream.fresh,
        complex.ofReal, dft4, complex.add, complex.sub, complex.mulI,
        complex.mul_def, complex.mul]
  refine ⟨rfl, rfl, hall, ?_⟩
  rw [(hall _).2.2]
  decide

/-- C10, evaluated at quarter 1, index 0, with block length 1024: the mask
built by `load` has 256 entries, and the mask index used for `T = 1, i = 0`
(and for `T = 3, i = 0`) is `1024 / 4 - 0 = 256`, one past the last entry.
The value read there is the content of the memory behind the mask, and
filtered-spectrum bin 256 after a block call is the clean bin times that
content. -/
theorem mask_index_past_end :
    scenarioStart.filterShortComplexVector.length = 256 ∧
    filterIndex scenarioConfig.SAMPLES_TO_STREAM 1 0 = 256 ∧
    filterIndex scenarioConfig.SAMPLES_TO_STREAM 3 0 = 256 ∧
    ¬ filterIndex scenarioConfig.SAMPLES_TO_STREAM 1 0
      < scenarioStart.filterShortComplexVector.length ∧
    (onGetData scenarioConfig scenarioStart).1.currentSampleSpectrumVector[256]?
      = some (vecRead (onGetData scenarioConfig scenarioStart).1.currentSampleCleanSpectrumVector
          scenarioConfig.pastEndComplex 256 * scenarioConfig.pastEndComplex 256) := by
  have hN : scenarioConfig.SAMPLES_TO_STREAM = 1024 := rfl
  have hmask : scenarioStart.filterShortComplexVector.length = 256 := by
    have h := (load_consistent scenarioConfig scenarioBuffer FFTAudioStream.fresh).1
    rw [hN] at h
    exact h
  have hidx : filterIndex scenarioConfig.SAMPLES_TO_STREAM 1 0 = 256 := by
    rw [hN]
    decide
  have hclean : scenarioConfig.SAMPLES_TO_STREAM
      ≤ (onGetData scenarioConfig scenarioStart).1.currentSampleCleanSpectrumVector.length := by
    have hF : ∀ v, scenarioConfig.Forward v = v := fun _ => rfl
    rw [(onGetData_fields _ _).1, (processBlock_fields _ _).1, hF,
      (getStreamSamples_spec _ _).1]
    exact le_of_eq (load_wave_length _ _ _).symm
  have hbin := block_bins scenarioConfig scenarioStart hclean 1 0 (by decide)
    (by rw [hN]; decide)
  rw [hidx, vecRead_of_ge scenarioStart.filterShortComplexVector _ _ (le_of_eq hmask)] at hbin
  refine ⟨hmask, hidx, by rw [hN]; decide, by rw [hidx, hmask]; decide, ?_⟩
  simpa [hN] using hbin

end SoundVisualizer
